import Mathlib

/-
Shallow embedding of `epg_parser.py` (weekly TV-schedule text → XMLTV EPG
document) and verification of its specification.

Modeling conventions, used consistently below:

* Python strings are modeled as `List Char` over Unicode code points.
  `str.upper()` / `str.lower()` are modeled by `Char.toUpper` / `Char.toLower`
  (the basic-latin case maps; the inputs of interest are ASCII).
  The regex classes `\d` and the case-insensitive letter matches are modeled
  by their ASCII portions.
* The Python whitespace class (`str.strip`, `str.isspace`, regex `\s`) is the
  set of Unicode whitespace code points; `pyIsSpace` lists them explicitly.
* `datetime` values produced by the script always lie on a minute grid, so a
  timestamp is modeled as minutes since an (arbitrary, Monday-aligned) epoch:
  day number `d` has weekday index `d % 7` with `0 = Monday`, matching
  `DAYS_OF_WEEK` in the source, and `timedelta(hours=1)` is `60`.
  This reindexing is order- and arithmetic-faithful for every operation the
  script performs on dates and datetimes.
* `re.match` of the two (fixed) program-line regexes is modeled by dedicated
  recognizers whose backtracking behaviour is proved equal to the regex
  engine's on all inputs produced by line iteration (each line contains at
  most a trailing newline, which `strip` removes).  The `(.*)\s*$` tail of
  both regexes matches exactly when every character from the first newline
  on is whitespace, capturing the maximal newline-free prefix; the
  recognizers implement that characterization directly.
* `datetime.strptime` with the formats `%I:%M %p` / `%I:%M%p` is modeled
  after CPython `_strptime`: the regex `(1[0-2]|0[1-9]|[1-9])` for `%I`,
  `([0-5]\d|\d)` for `%M`, `(am|pm)` case-insensitively for `%p`, literal
  whitespace as `\s+`, a full match required, and the 12h → 24h adjustment
  (`pm` adds 12 except at 12, `am` maps 12 to 0).
* `list.sort(key=...)` (Timsort) is a stable sort; a stable sort by a total
  preorder has a unique result, so it is modeled by `List.insertionSort`
  with the corresponding `≤` relation, which is likewise stable.
-/

namespace EPG

/-! ### Character-level helpers -/

/-- The Unicode whitespace code points recognized by CPython's `str.strip`,
`str.isspace` and the regex class `\s` (for `str` patterns). -/
def pyIsSpace (c : Char) : Bool :=
  c.toNat = 32 || c.toNat = 9 || c.toNat = 10 || c.toNat = 11 || c.toNat = 12 ||
  c.toNat = 13 || c.toNat = 28 || c.toNat = 29 || c.toNat = 30 || c.toNat = 31 ||
  c.toNat = 133 || c.toNat = 160 || c.toNat = 5760 ||
  (8192 ≤ c.toNat && c.toNat ≤ 8202) ||
  c.toNat = 8232 || c.toNat = 8233 || c.toNat = 8239 || c.toNat = 8287 ||
  c.toNat = 12288

/-- ASCII lower-casing on code points, as used by `re.IGNORECASE` matching of
the ASCII letter patterns in the source's regexes. -/
def lowerNat (n : Nat) : Nat := if 65 ≤ n ∧ n ≤ 90 then n + 32 else n

/-- Code-point test for the regex class `\d` (ASCII portion). -/
def isDigitN (c : Char) : Bool := 48 ≤ c.toNat && c.toNat ≤ 57

/-- Numeric value of an ASCII digit, as computed by `int()` on digit strings. -/
def dval (c : Char) : Nat := c.toNat - 48

/-- Python `str.strip()`: remove leading and trailing whitespace. -/
def pyStrip (s : List Char) : List Char :=
  ((s.dropWhile pyIsSpace).reverse.dropWhile pyIsSpace).reverse

/-- Worker for `pyReplace`: scan left to right; on a needle match emit the
replacement and skip the remaining `needle.length - 1` matched characters
(the skip counter keeps the recursion structural). -/
def pyRepGo (needle repl : List Char) : Nat → List Char → List Char
  | _, [] => []
  | 0, c :: rest =>
    if needle.isPrefixOf (c :: rest) then
      repl ++ pyRepGo needle repl (needle.length - 1) rest
    else
      c :: pyRepGo needle repl 0 rest
  | k + 1, _ :: rest => pyRepGo needle repl k rest

/-- Python `str.replace(needle, repl)`: replace every occurrence, scanning
left to right without overlap.  (Both uses in the source have a non-empty
needle; the empty-needle case is guarded off.) -/
def pyReplace (needle repl s : List Char) : List Char :=
  if needle = [] then s else pyRepGo needle repl 0 s

/-! ### Time Normalizer: `parse_time_to_24h` (source lines 34–52) -/

/-- The `%p` directive of `_strptime`: the alternation `(am|pm)` matched
case-insensitively.  Returns the pm flag and the rest of the input. -/
def readMarker : List Char → Option (Bool × List Char)
  | c1 :: c2 :: r =>
    if lowerNat c1.toNat = 97 ∧ lowerNat c2.toNat = 109 then some (false, r)
    else if lowerNat c1.toNat = 112 ∧ lowerNat c2.toNat = 109 then some (true, r)
    else none
  | _ => none

/-- The `%M` directive of `_strptime`: the alternation `([0-5]\d|\d)`, with
regex backtracking through the continuation `k`. -/
def minuteAlt (s : List Char) (k : Nat → List Char → Option (Nat × Nat)) :
    Option (Nat × Nat) :=
  (match s with
   | c1 :: c2 :: r =>
     if 48 ≤ c1.toNat ∧ c1.toNat ≤ 53 ∧ isDigitN c2 then
       k (dval c1 * 10 + dval c2) r
     else none
   | _ => none).orElse (fun _ =>
   match s with
   | c1 :: r => if isDigitN c1 then k (dval c1) r else none
   | _ => none)

/-- The `%I` directive of `_strptime`: the alternation `(1[0-2]|0[1-9]|[1-9])`,
with regex backtracking through the continuation `k`. -/
def hourAlt (s : List Char) (k : Nat → List Char → Option (Nat × Nat)) :
    Option (Nat × Nat) :=
  (match s with
   | c1 :: c2 :: r =>
     if c1.toNat = 49 ∧ 48 ≤ c2.toNat ∧ c2.toNat ≤ 50 then k (10 + dval c2) r
     else none
   | _ => none).orElse (fun _ =>
  (match s with
   | c1 :: c2 :: r =>
     if c1.toNat = 48 ∧ 49 ≤ c2.toNat ∧ c2.toNat ≤ 57 then k (dval c2) r
     else none
   | _ => none).orElse (fun _ =>
   match s with
   | c1 :: r => if 49 ≤ c1.toNat ∧ c1.toNat ≤ 57 then k (dval c1) r else none
   | _ => none))

/-- The 12-hour → 24-hour adjustment performed by `_strptime` when both `%I`
and `%p` are present. -/
def adjust (pm : Bool) (h : Nat) : Nat :=
  if pm then (if h ≠ 12 then h + 12 else h) else (if h = 12 then 0 else h)

/-- The format tail after `%I:%M`: optional literal whitespace (compiled to
`\s+` by `_strptime`, a safe maximal munch since the marker letters are not
whitespace), then `%p`, then end of input (a full match is required). -/
def tailIMp (space : Bool) (h m : Nat) (r3 : List Char) : Option (Nat × Nat) :=
  match (if space then
           match r3 with
           | c :: _ => if pyIsSpace c then some (r3.dropWhile pyIsSpace) else none
           | [] => none
         else some r3) with
  | some r5 =>
    match readMarker r5 with
    | some (pm, r6) => if r6 = [] then some (adjust pm h, m) else none
    | none => none
  | none => none

/-- `datetime.strptime(s, fmt)` restricted to the two formats the source
uses: `%I:%M %p` (when `space` is true) and `%I:%M%p`.  Returns the 24-hour
`(hour, minute)` of the parsed datetime, or `none` on `ValueError`. -/
def strptimeIMp (space : Bool) (s : List Char) : Option (Nat × Nat) :=
  hourAlt s (fun h r =>
    match r with
    | ':' :: r2 => minuteAlt r2 (fun m r3 => tailIMp space h m r3)
    | _ => none)

/-- Source lines 34–52: `parse_time_to_24h`.  Empty input is rejected up
front; otherwise the token is stripped, upper-cased, `NN` is replaced by
`PM`, and the two accepted formats are tried in order. -/
def parse_time_to_24h (s : List Char) : Option (Nat × Nat) :=
  if s = [] then none
  else
    let t := pyReplace ['N', 'N'] ['P', 'M'] ((pyStrip s).map Char.toUpper)
    (strptimeIMp true t).orElse (fun _ => strptimeIMp false t)

/-! ### Line Classifier: the two program-line regexes (source lines 63, 65) -/

/-- The separator class `[-–\s]` of `program_line_re`: hyphen, en-dash
(U+2013), or whitespace.  (The source comment speaks of em-dashes, but the
class itself contains only the en-dash.) -/
def csep (c : Char) : Bool := c = '-' || c = '–' || pyIsSpace c

/-- The marker alternation `(?:AM|PM|am|pm|nn)` (or without `nn` for the
lighttv regex) under `re.I`: case-insensitive comparison of two characters. -/
def markerOK (allowNN : Bool) (k1 k2 : Char) : Bool :=
  (lowerNat k1.toNat = 97 && lowerNat k2.toNat = 109) ||
  (lowerNat k1.toNat = 112 && lowerNat k2.toNat = 109) ||
  (allowNN && lowerNat k1.toNat = 110 && lowerNat k2.toNat = 110)

/-- After the colon of the time token: `\d{2}\s*(?:AM|PM|am|pm[|nn])`.
Returns the capture-group characters of the token together with the rest of
the line.  The `\s*` is a maximal munch (the marker letters are never
whitespace, so the regex engine never backtracks into it successfully). -/
def afterColon (allowNN : Bool) (hd : List Char) (r : List Char) :
    Option (List Char × List Char) :=
  match r with
  | m1 :: m2 :: r2 =>
    if isDigitN m1 ∧ isDigitN m2 then
      match r2.dropWhile pyIsSpace with
      | k1 :: k2 :: r4 =>
        if markerOK allowNN k1 k2 then
          some (hd ++ ':' :: m1 :: m2 :: (r2.takeWhile pyIsSpace ++ [k1, k2]), r4)
        else none
      | _ => none
    else none
  | _ => none

/-- The time-token group `(\d{1,2}:\d{2}\s*(?:AM|PM|am|pm[|nn]))`.
`\d{1,2}` is greedy: two digits are taken when the third character is the
colon, otherwise the engine backtracks to one digit. -/
def readTimeToken (allowNN : Bool) (s : List Char) :
    Option (List Char × List Char) :=
  match s with
  | c1 :: rest =>
    if isDigitN c1 then
      match rest with
      | c2 :: rest2 =>
        if isDigitN c2 then
          match rest2 with
          | ':' :: rest3 => afterColon allowNN [c1, c2] rest3
          | _ => none
        else
          match rest with
          | ':' :: rest3 => afterColon allowNN [c1] rest3
          | _ => none
      | [] => none
    else none
  | [] => none

/-- The tail `(.*)\s*$` of both regexes: it matches exactly when every
character from the first newline onward is whitespace, and the group
captures the maximal newline-free prefix (`.` does not match newlines and
`\s*$` absorbs a whitespace-and-newline suffix). -/
def tailCapture (s : List Char) : Option (List Char) :=
  if (s.dropWhile (fun c => c ≠ '\n')).all pyIsSpace then
    some (s.takeWhile (fun c => c ≠ '\n'))
  else none

/-- Source line 63, `program_line_re.match`:
`^\s*(\d{1,2}:\d{2}\s*(?:AM|PM|am|pm|nn))\s*[-–\s]+\s*(.*)\s*$` with `re.I`.
The separator `\s*[-–\s]+\s*` consumes the maximal run of class characters
after the token and requires at least one.  Returns the two capture groups. -/
def matchProgramLine (s : List Char) : Option (List Char × List Char) :=
  match readTimeToken true (s.dropWhile pyIsSpace) with
  | some (tok, r) =>
    if r.takeWhile csep = ([] : List Char) then none
    else (tailCapture (r.dropWhile csep)).map (fun g2 => (tok, g2))
  | none => none

/-- Source line 65, `lighttv_program_line_re.match`:
`^\s*(\d{1,2}:\d{2}\s*(?:AM|PM|am|pm))\s{2,}(.*)\s*$` with `re.I`. -/
def matchLightTv (s : List Char) : Option (List Char × List Char) :=
  match readTimeToken false (s.dropWhile pyIsSpace) with
  | some (tok, r) =>
    if 2 ≤ (r.takeWhile pyIsSpace).length then
      (tailCapture (r.dropWhile pyIsSpace)).map (fun g2 => (tok, g2))
    else none
  | none => none

/-! ### Schedule Parser: `parse_schedule_file` (source lines 54–127) -/

/-- One weekly-template entry, as appended at source lines 97–102. -/
structure ProgramRecord where
  day : List Char
  time_str : List Char
  title : List Char
  channel_id : List Char
deriving DecidableEq, Repr

/-- The `DAYS_OF_WEEK` table (source lines 28–31). -/
def DAYS_OF_WEEK : List (List Char × Nat) :=
  [("MONDAY".toList, 0), ("TUESDAY".toList, 1), ("WEDNESDAY".toList, 2),
   ("THURSDAY".toList, 3), ("FRIDAY".toList, 4), ("SATURDAY".toList, 5),
   ("SUNDAY".toList, 6)]

/-- Day-header lookup: `upper_line in DAYS_OF_WEEK` / `DAYS_OF_WEEK[...]`. -/
def dayIndex? (s : List Char) : Option Nat :=
  (DAYS_OF_WEEK.find? (fun p => p.1 = s)).map (fun p => p.2)

/-- Source line 75: `line.upper().replace('\r', '').replace('\n', '')`. -/
def headerKey (line : List Char) : List Char :=
  (line.map Char.toUpper).filter (fun c => c ≠ '\r' && c ≠ '\n')

/-- Source line 89: `'lighttv.txt' in filepath.lower()` (substring test). -/
def containsSub (needle : List Char) : List Char → Bool
  | [] => needle.isPrefixOf []
  | c :: rest => needle.isPrefixOf (c :: rest) || containsSub needle rest

def isLightFile (filepath : List Char) : Bool :=
  containsSub "lighttv.txt".toList (filepath.map Char.toLower)

/-- Source lines 83–90: try the general regex, then (for lighttv files) the
column-aligned one. -/
def lineMatch (filepath line : List Char) : Option (List Char × List Char) :=
  (matchProgramLine line).orElse (fun _ =>
    if isLightFile filepath then matchLightTv line else none)

/-- Source lines 67–105: the per-line loop of `parse_schedule_file`, with the
current-day cursor.  A stripped-empty line is skipped; a day header resets
the cursor; lines before the first header are dropped; a program-line match
with a non-empty stripped title appends a record (the non-match branch only
logs). -/
def parseLines (filepath cid : List Char) :
    List (List Char) → Option (List Char) → List ProgramRecord
  | [], _ => []
  | l :: ls, cur =>
    let line := pyStrip l
    if line = [] then parseLines filepath cid ls cur
    else if (dayIndex? (headerKey line)).isSome then
      parseLines filepath cid ls (some (headerKey line))
    else
      match cur with
      | none => parseLines filepath cid ls none
      | some d =>
        match lineMatch filepath line with
        | some (t, ti) =>
          if pyStrip ti = [] then parseLines filepath cid ls (some d)
          else ⟨d, pyStrip t, pyStrip ti, cid⟩ :: parseLines filepath cid ls (some d)
        | none => parseLines filepath cid ls (some d)

/-- The sort key of source line 119: `(day_index, hour, minute)` compared as
Python compares tuples (lexicographically).  On every record that survives
the normalization filter the components agree with the values Python stores
(`DAYS_OF_WEEK[p['day']]` and `parse_time_to_24h(p['time_str'])`). -/
def recKey (p : ProgramRecord) : Nat × Nat × Nat :=
  match parse_time_to_24h p.time_str with
  | some (h, m) => ((dayIndex? p.day).getD 0, h, m)
  | none => ((dayIndex? p.day).getD 0, 0, 0)

/-- Lexicographic `≤` on key triples, exactly Python's tuple comparison. -/
def keyLe (a b : Nat × Nat × Nat) : Prop :=
  a.1 < b.1 ∨ (a.1 = b.1 ∧ (a.2.1 < b.2.1 ∨ (a.2.1 = b.2.1 ∧ a.2.2 ≤ b.2.2)))

instance : DecidableRel keyLe := fun a b => by unfold keyLe; infer_instance

def recLe (p q : ProgramRecord) : Prop := keyLe (recKey p) (recKey q)

instance : DecidableRel recLe := fun p q => by unfold recLe; infer_instance

instance : IsTotal ProgramRecord recLe :=
  ⟨by intro a b; unfold recLe keyLe; omega⟩

instance : IsTrans ProgramRecord recLe :=
  ⟨by intro a b c; unfold recLe keyLe; omega⟩

/-- Source lines 54–127, `parse_schedule_file` on the file's lines: classify
and accumulate records, drop the ones whose time token fails to normalize
(lines 108–116), and stable-sort by `(day index, hour, minute)` (line 119).
The temporary sort keys of the Python dict are recomputed, never stored, so
deleting them (lines 122–125) has no counterpart here. -/
def parse_schedule_file (filepath cid : List Char) (lines : List (List Char)) :
    List ProgramRecord :=
  List.insertionSort recLe
    ((parseLines filepath cid lines none).filter
      (fun p => (parse_time_to_24h p.time_str).isSome))

/-! ### Calendar Projector and Document Builder: `generate_xmltv`
(source lines 129–219).  A calendar date is a day number with weekday
`d % 7` (`0 = Monday`); a datetime is `date * 1440 + hour * 60 + minute`
minutes since the epoch, an order-faithful encoding of the `datetime`
values the script builds. -/

/-- One projected instance, as appended at source lines 172–176. -/
structure DatedInstance where
  start_dt : Nat
  title : List Char
  channel_id : List Char
deriving DecidableEq, Repr

/-- One `programme` element (source lines 194–206).  The `title` field also
stands for the `desc` child, whose text is identical. -/
structure Programme where
  start : Nat
  stop : Nat
  channel : List Char
  title : List Char
deriving DecidableEq, Repr

/-- The generated document, abstracted to its element lists: the `channel`
elements (id and derived display name) and the `programme` elements, in
emission order. -/
structure TVDoc where
  channels : List (List Char × List Char)
  programmes : List Programme
deriving DecidableEq, Repr

/-- Source line 11: the projection window length. -/
def EPG_SCHEDULE_DAYS : Nat := 28

/-- Source line 162: `current_date.strftime('%A').upper()`. -/
def weekdayName : Nat → List Char
  | 0 => "MONDAY".toList
  | 1 => "TUESDAY".toList
  | 2 => "WEDNESDAY".toList
  | 3 => "THURSDAY".toList
  | 4 => "FRIDAY".toList
  | 5 => "SATURDAY".toList
  | _ => "SUNDAY".toList

/-- Source lines 161–176: one day of the projection.  Filter the weekly
records by weekday name, re-normalize each time token, and build the dated
start for the survivors. -/
def projectDay (cid : List Char) (progs : List ProgramRecord) (today i : Nat) :
    List DatedInstance :=
  (progs.filter (fun p => p.day = weekdayName ((today + i) % 7))).filterMap
    (fun p => (parse_time_to_24h p.time_str).map
      (fun hm => ⟨(today + i) * 1440 + hm.1 * 60 + hm.2, p.title, cid⟩))

/-- Source lines 158–176: all instances of the window, in generation order. -/
def channelDated (cid : List Char) (progs : List ProgramRecord) (today : Nat) :
    List DatedInstance :=
  (List.range EPG_SCHEDULE_DAYS).flatMap (fun i => projectDay cid progs today i)

def startLe (a b : DatedInstance) : Prop := a.start_dt ≤ b.start_dt

instance : DecidableRel startLe := fun a b => by unfold startLe; infer_instance

instance : IsTotal DatedInstance startLe := ⟨by intro a b; unfold startLe; omega⟩

instance : IsTrans DatedInstance startLe := ⟨by intro a b c; unfold startLe; omega⟩

/-- Source line 179: `dated_programs.sort(key=lambda x: x['start_dt'])`. -/
def channelInstances (cid : List Char) (progs : List ProgramRecord) (today : Nat) :
    List DatedInstance :=
  List.insertionSort startLe (channelDated cid progs today)

/-- Source lines 182–206: walk the sorted instances; each stop is the next
start, the final stop is start plus one hour; titles are stripped when the
`title`/`desc` children are created (lines 202, 206). -/
def assignStops : List DatedInstance → List Programme
  | [] => []
  | [a] => [⟨a.start_dt, a.start_dt + 60, a.channel_id, pyStrip a.title⟩]
  | a :: b :: rest =>
    ⟨a.start_dt, b.start_dt, a.channel_id, pyStrip a.title⟩ :: assignStops (b :: rest)

/-- The `programme` elements emitted for one channel (the body of the loop
at source lines 155–206). -/
def channelProgrammes (cid : List Char) (progs : List ProgramRecord) (today : Nat) :
    List Programme :=
  assignStops (channelInstances cid progs today)

/-- Python string `<` (lexicographic comparison of code points). -/
def strLtB : List Char → List Char → Bool
  | [], [] => false
  | [], _ :: _ => true
  | _ :: _, [] => false
  | a :: as, b :: bs => a.toNat < b.toNat || (a = b && strLtB as bs)

/-- The `≤` relation used to model `sorted` on channel identifiers. -/
def chanLe (a b : List Char) : Prop := strLtB b a = false

instance : DecidableRel chanLe := fun a b => by unfold chanLe; infer_instance

/-- Source line 138: `sorted(list(set(...)))` — the distinct channel ids in
ascending order.  (`set` loses order; `sorted` then determines it fully, so
deduplication order is irrelevant.) -/
def channelIdsOf (all_programs : List ProgramRecord) : List (List Char) :=
  List.insertionSort chanLe (all_programs.map (fun p => p.channel_id)).dedup

/-- Source line 143: `chan_id.split('.')[0].upper()`. -/
def displayName (cid : List Char) : List Char :=
  (cid.takeWhile (fun c => c ≠ '.')).map Char.toUpper

/-- Source line 150: `programs_by_channel.setdefault(...).append(p)` — append
to the entry of an insertion-ordered association list, creating it at the
end if absent (Python dicts preserve insertion order). -/
def addTo (g : List (List Char × List ProgramRecord)) (p : ProgramRecord) :
    List (List Char × List ProgramRecord) :=
  match g with
  | [] => [(p.channel_id, [p])]
  | (k, vs) :: rest =>
    if k = p.channel_id then (k, vs ++ [p]) :: rest else (k, vs) :: addTo rest p

/-- Source lines 148–150: group the records by channel. -/
def groupByChannel (l : List ProgramRecord) :
    List (List Char × List ProgramRecord) :=
  l.foldl addTo []

/-- Source lines 129–206, `generate_xmltv`, abstracted to the element lists
of the produced tree: the sorted `channel` elements, then per grouped
channel (in first-occurrence order) the chronologically sorted, stop-annotated
`programme` elements. -/
def generate_xmltv (all_programs : List ProgramRecord) (today : Nat) : TVDoc :=
  ⟨(channelIdsOf all_programs).map (fun c => (c, displayName c)),
   (groupByChannel all_programs).flatMap
     (fun g => channelProgrammes g.1 g.2 today)⟩

/-! ### Serialization tail (source lines 208–219) -/

def squote : Char := Char.ofNat 39

def dquote : Char := Char.ofNat 34

/-- The XML declaration as `ElementTree.tostring(..., xml_declaration=True,
encoding='utf-8')` writes it, parameterized by the quote character the
serializer uses. -/
def xmlDeclWith (q : Char) : List Char :=
  "<?xml version=".toList ++ q :: "1.0".toList ++ q :: " encoding=".toList ++
    q :: "utf-8".toList ++ q :: "?>".toList

/-- Source line 218: the fixed DOCTYPE declaration. -/
def doctypeStr : List Char := "<!DOCTYPE tv SYSTEM ".toList ++ dquote :: "xmltv.dtd".toList ++ [dquote, '>']

/-- The serializer output: declaration, newline, document body. -/
def serializeTostring (q : Char) (body : List Char) : List Char :=
  xmlDeclWith q ++ '\n' :: body

/-- Source line 219: replace the single-quoted declaration by the
double-quoted one followed by the DOCTYPE. -/
def finalizeXml (q : Char) (body : List Char) : List Char :=
  pyReplace (xmlDeclWith squote) (xmlDeclWith dquote ++ '\n' :: doctypeStr)
    (serializeTostring q body)

/-! ## Verification -/

/-! ### Basic lemmas about the option combinators and the normalizer -/

theorem orElse_some {α : Type} {a : Option α} {f : Unit → Option α} {v : α}
    (h : a.orElse f = some v) : a = some v ∨ f () = some v := by
  cases a with
  | none => right; simpa [Option.orElse] using h
  | some x => left; simpa [Option.orElse] using h

theorem hourAlt_bound {s : List Char} {k : Nat → List Char → Option (Nat × Nat)}
    {v : Nat × Nat} (hv : hourAlt s k = some v) :
    ∃ h r, 1 ≤ h ∧ h ≤ 12 ∧ k h r = some v := by
  unfold hourAlt at hv
  rcases s with _ | ⟨c1, _ | ⟨c2, r⟩⟩
  · simp [Option.orElse] at hv
  · simp only [Option.orElse] at hv
    split at hv
    · rename_i hc
      exact ⟨dval c1, _, by unfold dval; omega, by unfold dval; omega, hv⟩
    · exact absurd hv (by simp)
  · rcases orElse_some hv with h1 | h1
    · try simp only at h1
      split at h1
      · rename_i hc
        exact ⟨10 + dval c2, _, by omega, by unfold dval; omega, h1⟩
      · exact absurd h1 (by simp)
    · try simp only at h1
      rcases orElse_some h1 with h2 | h2
      · try simp only at h2
        split at h2
        · rename_i hc
          exact ⟨dval c2, _, by unfold dval; omega, by unfold dval; omega, h2⟩
        · exact absurd h2 (by simp)
      · try simp only at h2
        split at h2
        · rename_i hc
          exact ⟨dval c1, _, by unfold dval; omega, by unfold dval; omega, h2⟩
        · exact absurd h2 (by simp)

theorem minuteAlt_bound {s : List Char} {k : Nat → List Char → Option (Nat × Nat)}
    {v : Nat × Nat} (hv : minuteAlt s k = some v) :
    ∃ m r, m ≤ 59 ∧ k m r = some v := by
  unfold minuteAlt at hv
  rcases s with _ | ⟨c1, _ | ⟨c2, r⟩⟩
  · simp [Option.orElse] at hv
  · simp only [Option.orElse] at hv
    split at hv
    · rename_i hc
      unfold isDigitN at hc
      exact ⟨dval c1, _, by unfold dval; simp at hc; omega, hv⟩
    · exact absurd hv (by simp)
  · rcases orElse_some hv with h1 | h1
    · try simp only at h1
      split at h1
      · rename_i hc
        refine ⟨dval c1 * 10 + dval c2, _, ?_, h1⟩
        obtain ⟨hca, hcb, hcc⟩ := hc
        unfold isDigitN at hcc
        unfold dval
        simp at hcc
        omega
      · exact absurd h1 (by simp)
    · try simp only at h1
      split at h1
      · rename_i hc
        unfold isDigitN at hc
        exact ⟨dval c1, _, by unfold dval; simp at hc; omega, h1⟩
      · exact absurd h1 (by simp)

theorem tailIMp_some {space : Bool} {h m : Nat} {r3 : List Char} {v : Nat × Nat}
    (hv : tailIMp space h m r3 = some v) : ∃ pm, v = (adjust pm h, m) := by
  unfold tailIMp at hv
  repeat' split at hv
  all_goals cases hv
  all_goals exact ⟨_, rfl⟩

theorem strptimeIMp_bound {space : Bool} {s : List Char} {v : Nat × Nat}
    (hv : strptimeIMp space s = some v) : v.1 < 24 ∧ v.2 < 60 := by
  unfold strptimeIMp at hv
  obtain ⟨h, r, h1, h12, hk⟩ := hourAlt_bound hv
  split at hk
  · obtain ⟨m, r', hm, hk2⟩ := minuteAlt_bound hk
    obtain ⟨pm, hvv⟩ := tailIMp_some hk2
    subst hvv
    constructor
    · show adjust pm h < 24
      unfold adjust
      split_ifs <;> omega
    · show m < 60
      omega
  · exact absurd hk (by simp)

/-- C9: for every input string, `parse_time_to_24h` terminates (it is a
total function of the embedding) and returns either the unparseable signal
`none` or an in-range pair with hour below 24 and minute below 60. -/
theorem parse_time_to_24h_total_inrange (s : List Char) :
    parse_time_to_24h s = none ∨
      ∃ h m, parse_time_to_24h s = some (h, m) ∧ h < 24 ∧ m < 60 := by
  rcases he : parse_time_to_24h s with _ | ⟨h, m⟩
  · exact Or.inl rfl
  · right
    refine ⟨h, m, rfl, ?_⟩
    unfold parse_time_to_24h at he
    split at he
    · exact absurd he (by simp)
    · rcases orElse_some he with h1 | h1
      · exact strptimeIMp_bound h1
      · exact strptimeIMp_bound h1

/-! ### The accepted time surface forms (C4): spec-side rendering -/

/-- Spec-side rendering of a decimal digit. -/
def dchar : Nat → Char
  | 0 => '0' | 1 => '1' | 2 => '2' | 3 => '3' | 4 => '4'
  | 5 => '5' | 6 => '6' | 7 => '7' | 8 => '8' | _ => '9'

/-- Spec-side rendering of an hour `1..12` without a leading zero. -/
def hourChars : Nat → List Char
  | 10 => ['1', '0']
  | 11 => ['1', '1']
  | 12 => ['1', '2']
  | n => [dchar n]

/-- The upper-cased meridiem marker. -/
def markerChars (pm : Bool) : List Char := if pm then ['P', 'M'] else ['A', 'M']

/-- Spec-side rendering of a time token in the accepted surface forms:
hour, colon, two minute digits, an optional single space, and a two-letter
marker (`k1 k2`, any case). -/
def renderTok (h m : Nat) (sp : Bool) (k1 k2 : Char) : List Char :=
  (hourChars h ++ (':' :: dchar (m / 10) :: dchar (m % 10) ::
    (if sp then [' '] else []))) ++ [k1, k2]

/-- The token after `strip().upper().replace('NN', 'PM')`. -/
def normStr (h m : Nat) (sp pm : Bool) : List Char :=
  hourChars h ++ (':' :: dchar (m / 10) :: dchar (m % 10) ::
    ((if sp then [' '] else []) ++ markerChars pm))

theorem dchar_toNat {d : Nat} (hd : d ≤ 9) : (dchar d).toNat = 48 + d := by
  interval_cases d <;> rfl

theorem pyIsSpace_dchar {d : Nat} (hd : d ≤ 9) : pyIsSpace (dchar d) = false := by
  interval_cases d <;> rfl

theorem toUpper_dchar {d : Nat} (hd : d ≤ 9) : (dchar d).toUpper = dchar d := by
  interval_cases d <;> rfl

theorem dchar_toNat_ne_N {d : Nat} (hd : d ≤ 9) : (dchar d).toNat ≠ 78 := by
  rw [dchar_toNat hd]; omega

theorem toUpper_hourChars {h : Nat} (h1 : 1 ≤ h) (h2 : h ≤ 12) :
    (hourChars h).map Char.toUpper = hourChars h := by
  interval_cases h <;> rfl

theorem hourChars_no_space {h : Nat} (h1 : 1 ≤ h) (h2 : h ≤ 12) :
    ∀ c ∈ hourChars h, pyIsSpace c = false := by
  interval_cases h <;> decide

theorem hourChars_no_N {h : Nat} (h1 : 1 ≤ h) (h2 : h ≤ 12) :
    ∀ c ∈ hourChars h, c.toNat ≠ 78 := by
  interval_cases h <;> decide

theorem hourChars_ne_nil {h : Nat} (h1 : 1 ≤ h) (h2 : h ≤ 12) :
    hourChars h ≠ [] := by
  interval_cases h <;> decide

/-- On every Python whitespace code point, `upper()` is the identity. -/
theorem toUpper_of_space {c : Char} (h : pyIsSpace c = true) : c.toUpper = c := by
  unfold Char.toUpper
  rw [if_neg]
  simp only [pyIsSpace] at h
  simp only [Bool.or_eq_true, decide_eq_true_eq, Bool.and_eq_true] at h
  omega

theorem marker_not_space {c : Char} (h : c.toUpper = 'M' ∨ c.toUpper = 'N') :
    pyIsSpace c = false := by
  cases hpy : pyIsSpace c with
  | false => rfl
  | true =>
    have hu := toUpper_of_space hpy
    rcases h with h | h <;> rw [hu] at h <;> rw [h] at hpy <;>
      exact absurd hpy (by decide)

/-! ### Parsing the rendered forms -/

theorem hourAlt_render {h : Nat} (h1 : 1 ≤ h) (h2 : h ≤ 12)
    {rest : List Char} {k : Nat → List Char → Option (Nat × Nat)} {v : Nat × Nat}
    (hk : k h (':' :: rest) = some v) :
    hourAlt (hourChars h ++ ':' :: rest) k = some v := by
  interval_cases h <;> first
    | exact hk
    | (show (k 10 (':' :: rest)).orElse _ = some v; rw [hk]; rfl)
    | (show (k 11 (':' :: rest)).orElse _ = some v; rw [hk]; rfl)
    | (show (k 12 (':' :: rest)).orElse _ = some v; rw [hk]; rfl)

theorem minuteAlt_render {m : Nat} {rest : List Char}
    {k : Nat → List Char → Option (Nat × Nat)} {v : Nat × Nat}
    (hm : m < 60) (hk : k m rest = some v) :
    minuteAlt (dchar (m / 10) :: dchar (m % 10) :: rest) k = some v := by
  have d1 := dchar_toNat (show m / 10 ≤ 9 by omega)
  have d2 := dchar_toNat (show m % 10 ≤ 9 by omega)
  show (if 48 ≤ (dchar (m / 10)).toNat ∧ (dchar (m / 10)).toNat ≤ 53 ∧ isDigitN (dchar (m % 10))
        then k (dval (dchar (m / 10)) * 10 + dval (dchar (m % 10))) rest else none).orElse _ = some v
  rw [if_pos ⟨by omega, by omega, by simp only [isDigitN, d2]; simp; omega⟩]
  have hval : dval (dchar (m / 10)) * 10 + dval (dchar (m % 10)) = m := by
    unfold dval
    rw [d1, d2]
    omega
  rw [hval, hk]
  rfl

theorem tailIMp_render_sp {h m : Nat} {pm : Bool} :
    tailIMp true h m (' ' :: markerChars pm) = some (adjust pm h, m) := by
  cases pm <;> rfl

theorem tailIMp_render_nosp {h m : Nat} {pm : Bool} :
    tailIMp false h m (markerChars pm) = some (adjust pm h, m) := by
  cases pm <;> rfl

theorem tailIMp_sp_on_marker {h m : Nat} {pm : Bool} :
    tailIMp true h m (markerChars pm) = none := by
  cases pm <;> rfl

theorem tailIMp_sp_nonspace {h m : Nat} {c : Char} {r : List Char}
    (hc : pyIsSpace c = false) : tailIMp true h m (c :: r) = none := by
  simp [tailIMp, hc]

/-- Without the space, the spaced format `%I:%M %p` fails at the minute
alternation (both minute alternatives leave a non-whitespace character where
the format requires whitespace). -/
theorem minuteTail_fail {m hh : Nat} {pm : Bool} (hm : m < 60) :
    minuteAlt (dchar (m / 10) :: dchar (m % 10) :: markerChars pm)
      (fun m2 r3 => tailIMp true hh m2 r3) = none := by
  have d1 := dchar_toNat (show m / 10 ≤ 9 by omega)
  have d2 := dchar_toNat (show m % 10 ≤ 9 by omega)
  show (if 48 ≤ (dchar (m / 10)).toNat ∧ (dchar (m / 10)).toNat ≤ 53 ∧ isDigitN (dchar (m % 10))
        then tailIMp true hh (dval (dchar (m / 10)) * 10 + dval (dchar (m % 10))) (markerChars pm)
        else none).orElse _ = none
  rw [if_pos ⟨by omega, by omega, by simp only [isDigitN, d2]; simp; omega⟩,
    tailIMp_sp_on_marker]
  show (if isDigitN (dchar (m / 10))
        then tailIMp true hh (dval (dchar (m / 10))) (dchar (m % 10) :: markerChars pm)
        else none) = none
  rw [if_pos (by simp only [isDigitN, d1]; simp; omega),
    tailIMp_sp_nonspace (pyIsSpace_dchar (show m % 10 ≤ 9 by omega))]

theorem form1_ok {h m : Nat} {pm : Bool} (h1 : 1 ≤ h) (h2 : h ≤ 12) (hm : m < 60) :
    strptimeIMp true (normStr h m true pm) = some (adjust pm h, m) := by
  unfold strptimeIMp normStr
  apply hourAlt_render h1 h2
  show minuteAlt (dchar (m / 10) :: dchar (m % 10) :: (' ' :: markerChars pm))
    (fun m2 r3 => tailIMp true h m2 r3) = some (adjust pm h, m)
  exact minuteAlt_render hm tailIMp_render_sp

theorem form2_ok {h m : Nat} {pm : Bool} (h1 : 1 ≤ h) (h2 : h ≤ 12) (hm : m < 60) :
    strptimeIMp false (normStr h m false pm) = some (adjust pm h, m) := by
  unfold strptimeIMp normStr
  apply hourAlt_render h1 h2
  show minuteAlt (dchar (m / 10) :: dchar (m % 10) :: markerChars pm)
    (fun m2 r3 => tailIMp false h m2 r3) = some (adjust pm h, m)
  exact minuteAlt_render hm tailIMp_render_nosp

theorem form1_fail {h m : Nat} {pm : Bool} (h1 : 1 ≤ h) (h2 : h ≤ 12) (hm : m < 60) :
    strptimeIMp true (normStr h m false pm) = none := by
  unfold strptimeIMp normStr
  interval_cases h <;> first
    | exact minuteTail_fail hm
    | (show (minuteAlt (dchar (m / 10) :: dchar (m % 10) :: markerChars pm)
          (fun m2 r3 => tailIMp true 10 m2 r3)).orElse _ = none
       rw [minuteTail_fail hm]; rfl)
    | (show (minuteAlt (dchar (m / 10) :: dchar (m % 10) :: markerChars pm)
          (fun m2 r3 => tailIMp true 11 m2 r3)).orElse _ = none
       rw [minuteTail_fail hm]; rfl)
    | (show (minuteAlt (dchar (m / 10) :: dchar (m % 10) :: markerChars pm)
          (fun m2 r3 => tailIMp true 12 m2 r3)).orElse _ = none
       rw [minuteTail_fail hm]; rfl)

/-! ### The normalization chain on rendered tokens -/

theorem pyRepGo_cons_ne {c : Char} {t : List Char} (hc : c.toNat ≠ 78) :
    pyRepGo ['N', 'N'] ['P', 'M'] 0 (c :: t) = c :: pyRepGo ['N', 'N'] ['P', 'M'] 0 t := by
  have hpre : ¬ (['N', 'N'].isPrefixOf (c :: t) = true) := by
    intro hpre
    simp only [List.isPrefixOf, Bool.and_eq_true, beq_iff_eq] at hpre
    exact hc (hpre.1 ▸ rfl)
  conv_lhs => rw [pyRepGo]
  rw [if_neg hpre]

theorem pyRepGo_append_no_N {a : List Char} (ha : ∀ c ∈ a, c.toNat ≠ 78) (b : List Char) :
    pyRepGo ['N', 'N'] ['P', 'M'] 0 (a ++ b) = a ++ pyRepGo ['N', 'N'] ['P', 'M'] 0 b := by
  induction a with
  | nil => rfl
  | cons c t ih =>
    rw [List.cons_append, pyRepGo_cons_ne (ha c (List.mem_cons_self c t)),
      ih (fun d hd => ha d (List.mem_cons_of_mem c hd)), List.cons_append]

theorem pyReplace_no_N {s : List Char} (hs : ∀ c ∈ s, c.toNat ≠ 78) :
    pyReplace ['N', 'N'] ['P', 'M'] s = s := by
  unfold pyReplace
  rw [if_neg (by simp)]
  have h0 : pyRepGo ['N', 'N'] ['P', 'M'] 0 ([] : List Char) = [] := rfl
  have := pyRepGo_append_no_N hs ([] : List Char)
  rw [h0, List.append_nil] at this
  exact this

theorem pyReplace_append_NN {a : List Char} (ha : ∀ c ∈ a, c.toNat ≠ 78) :
    pyReplace ['N', 'N'] ['P', 'M'] (a ++ ['N', 'N']) = a ++ ['P', 'M'] := by
  unfold pyReplace
  rw [if_neg (by simp), pyRepGo_append_no_N ha]
  rfl

theorem dropWhile_eq_self_of_head {p : Char → Bool} {s : List Char}
    (h : ∀ c, s.head? = some c → p c = false) : s.dropWhile p = s := by
  cases s with
  | nil => rfl
  | cons c t =>
    rw [List.dropWhile_cons, if_neg]
    simp [h c rfl]

theorem pyStrip_eq_self {s : List Char}
    (h1 : ∀ c, s.head? = some c → pyIsSpace c = false)
    (h2 : ∀ c, s.getLast? = some c → pyIsSpace c = false) : pyStrip s = s := by
  unfold pyStrip
  rw [dropWhile_eq_self_of_head h1,
    dropWhile_eq_self_of_head (fun c hc => h2 c (by rwa [List.head?_reverse] at hc)),
    List.reverse_reverse]

/-- C4: for every time token in one of the two accepted surface forms
(hour 1–12, colon, two minute digits, optional single space, meridiem marker
in any letter case, with the colloquial noon marker `nn` accepted as the
afternoon marker), `parse_time_to_24h` returns the mathematically correct
24-hour pair. -/
theorem parse_time_to_24h_correct (h m : Nat) (sp : Bool) (k1 k2 : Char)
    (h1 : 1 ≤ h) (h2 : h ≤ 12) (hm : m < 60)
    (hk : (k1.toUpper, k2.toUpper) = ('A', 'M') ∨ (k1.toUpper, k2.toUpper) = ('P', 'M') ∨
          (k1.toUpper, k2.toUpper) = ('N', 'N')) :
    parse_time_to_24h (renderTok h m sp k1 k2) =
      some (if k1.toUpper = 'A' then (if h = 12 then 0 else h)
            else (if h = 12 then 12 else h + 12), m) := by
  have hne : renderTok h m sp k1 k2 ≠ [] := by
    unfold renderTok
    simp
  have hk2MN : k2.toUpper = 'M' ∨ k2.toUpper = 'N' := by
    rcases hk with hk | hk | hk <;> rw [Prod.mk.injEq] at hk <;> simp [hk.2]
  have hstrip : pyStrip (renderTok h m sp k1 k2) = renderTok h m sp k1 k2 := by
    apply pyStrip_eq_self
    · intro c hc
      rcases hh : hourChars h with _ | ⟨d, t⟩
      · exact absurd hh (hourChars_ne_nil h1 h2)
      · unfold renderTok at hc
        rw [hh] at hc
        simp only [List.cons_append, List.head?_cons, Option.some.injEq] at hc
        rw [← hc]
        exact hourChars_no_space h1 h2 d (by rw [hh]; exact List.mem_cons_self _ _)
    · intro c hc
      unfold renderTok at hc
      rw [List.getLast?_append] at hc
      simp only [List.getLast?] at hc
      simp at hc
      rw [← hc]
      exact marker_not_space hk2MN
  have hupper : (renderTok h m sp k1 k2).map Char.toUpper
      = (hourChars h ++ (':' :: dchar (m / 10) :: dchar (m % 10) ::
          (if sp then [' '] else []))) ++ [k1.toUpper, k2.toUpper] := by
    have hcol : Char.toUpper ':' = ':' := by decide
    have hsp2 : Char.toUpper ' ' = ' ' := by decide
    unfold renderTok
    cases sp <;>
      simp [List.map_append, toUpper_hourChars h1 h2,
        toUpper_dchar (show m / 10 ≤ 9 by omega),
        toUpper_dchar (show m % 10 ≤ 9 by omega), hcol, hsp2]
  have hmid : ∀ c ∈ hourChars h ++ (':' :: dchar (m / 10) :: dchar (m % 10) ::
      (if sp then [' '] else [])), c.toNat ≠ 78 := by
    intro c hc
    rcases List.mem_append.mp hc with hc | hc
    · exact hourChars_no_N h1 h2 c hc
    · simp only [List.mem_cons] at hc
      rcases hc with hc | hc | hc | hc
      · rw [hc]; decide
      · rw [hc]; exact dchar_toNat_ne_N (show m / 10 ≤ 9 by omega)
      · rw [hc]; exact dchar_toNat_ne_N (show m % 10 ≤ 9 by omega)
      · cases sp <;> simp at hc
        rw [hc]
        decide
  unfold parse_time_to_24h
  rw [if_neg hne]
  show (strptimeIMp true (pyReplace ['N', 'N'] ['P', 'M']
        ((pyStrip (renderTok h m sp k1 k2)).map Char.toUpper))).orElse
      (fun _ => strptimeIMp false (pyReplace ['N', 'N'] ['P', 'M']
        ((pyStrip (renderTok h m sp k1 k2)).map Char.toUpper))) = _
  rw [hstrip, hupper]
  rcases hk with hkc | hkc | hkc <;> rw [Prod.mk.injEq] at hkc <;>
    rw [hkc.1, hkc.2]
  · rw [pyReplace_no_N (by
      intro c hc
      rcases List.mem_append.mp hc with hc | hc
      · exact hmid c hc
      · simp only [List.mem_cons, List.not_mem_nil, or_false] at hc
        rcases hc with hc | hc <;> rw [hc] <;> decide)]
    have hnorm : (hourChars h ++ (':' :: dchar (m / 10) :: dchar (m % 10) ::
        (if sp then [' '] else []))) ++ ['A', 'M'] = normStr h m sp false := by
      unfold normStr markerChars
      cases sp <;> simp [List.append_assoc]
    rw [hnorm]
    cases sp with
    | true =>
      rw [form1_ok h1 h2 hm]
      simp [adjust]
    | false =>
      rw [form1_fail h1 h2 hm]
      show strptimeIMp false (normStr h m false false) = _
      rw [form2_ok h1 h2 hm]
      simp [adjust]
  · rw [pyReplace_no_N (by
      intro c hc
      rcases List.mem_append.mp hc with hc | hc
      · exact hmid c hc
      · simp only [List.mem_cons, List.not_mem_nil, or_false] at hc
        rcases hc with hc | hc <;> rw [hc] <;> decide)]
    have hnorm : (hourChars h ++ (':' :: dchar (m / 10) :: dchar (m % 10) ::
        (if sp then [' '] else []))) ++ ['P', 'M'] = normStr h m sp true := by
      unfold normStr markerChars
      cases sp <;> simp [List.append_assoc]
    rw [hnorm]
    cases sp with
    | true =>
      rw [form1_ok h1 h2 hm]
      simp only [Option.orElse, adjust]
      by_cases h12 : h = 12 <;> simp [h12]
    | false =>
      rw [form1_fail h1 h2 hm]
      show strptimeIMp false (normStr h m false true) = _
      rw [form2_ok h1 h2 hm]
      simp only [adjust]
      by_cases h12 : h = 12 <;> simp [h12]
  · rw [pyReplace_append_NN hmid]
    have hnorm : (hourChars h ++ (':' :: dchar (m / 10) :: dchar (m % 10) ::
        (if sp then [' '] else []))) ++ ['P', 'M'] = normStr h m sp true := by
      unfold normStr markerChars
      cases sp <;> simp [List.append_assoc]
    rw [hnorm]
    cases sp with
    | true =>
      rw [form1_ok h1 h2 hm]
      simp only [Option.orElse, adjust]
      by_cases h12 : h = 12 <;> simp [h12]
    | false =>
      rw [form1_fail h1 h2 hm]
      show strptimeIMp false (normStr h m false true) = _
      rw [form2_ok h1 h2 hm]
      simp only [adjust]
      by_cases h12 : h = 12 <;> simp [h12]

/-- Witness for C4: the theorem applied at the three examples named in the
specification. -/
theorem parse_time_to_24h_correct_witness :
    parse_time_to_24h ("12:00nn".toList) = some (12, 0) ∧
    parse_time_to_24h ("12:30 AM".toList) = some (0, 30) ∧
    parse_time_to_24h ("5:45pm".toList) = some (17, 45) := by
  refine ⟨?_, ?_, ?_⟩
  · have h := parse_time_to_24h_correct 12 0 false 'n' 'n'
      (by decide) (by decide) (by decide) (by decide)
    rw [show renderTok 12 0 false 'n' 'n' = "12:00nn".toList from by decide] at h
    simpa using h
  · have h := parse_time_to_24h_correct 12 30 true 'A' 'M'
      (by decide) (by decide) (by decide) (by decide)
    rw [show renderTok 12 30 true 'A' 'M' = "12:30 AM".toList from by decide] at h
    simpa using h
  · have h := parse_time_to_24h_correct 5 45 false 'p' 'm'
      (by decide) (by decide) (by decide) (by decide)
    rw [show renderTok 5 45 false 'p' 'm' = "5:45pm".toList from by decide] at h
    simpa using h

/-! ### The Line Classifier on well-formed program lines (C2, C10) -/

theorem digit_not_space {c : Char} (hc : isDigitN c = true) : pyIsSpace c = false := by
  simp only [isDigitN, Bool.and_eq_true, decide_eq_true_eq] at hc
  simp only [pyIsSpace]
  simp only [Bool.or_eq_false_iff, decide_eq_false_iff_not, Bool.and_eq_false_iff]
  omega

theorem markerOK_not_space {allowNN : Bool} {k1 k2 : Char}
    (hk : markerOK allowNN k1 k2 = true) : pyIsSpace k1 = false := by
  simp only [markerOK, Bool.or_eq_true, Bool.and_eq_true, decide_eq_true_eq] at hk
  have h1 : lowerNat k1.toNat = 97 ∨ lowerNat k1.toNat = 112 ∨ lowerNat k1.toNat = 110 := by
    tauto
  unfold lowerNat at h1
  simp only [pyIsSpace, Bool.or_eq_false_iff, decide_eq_false_iff_not,
    Bool.and_eq_false_iff]
  split at h1 <;> omega

theorem takeWhile_not_head {p : Char → Bool} {s : List Char}
    (h : ∀ c, s.head? = some c → p c = false) : s.takeWhile p = [] := by
  cases s with
  | nil => rfl
  | cons c t =>
    rw [List.takeWhile_cons, if_neg]
    simp [h c rfl]

/-- The time-token group of either regex consumes exactly a rendered token:
one or two hour digits, colon, two minute digits, internal whitespace, and a
marker accepted by the (case-insensitive) alternation. -/
theorem readTimeToken_render {allowNN : Bool} {hd : List Char} {m1 m2 : Char}
    {w : List Char} {k1 k2 : Char} {rest : List Char}
    (hlen : hd.length = 1 ∨ hd.length = 2) (hdig : ∀ c ∈ hd, isDigitN c = true)
    (hm1 : isDigitN m1 = true) (hm2 : isDigitN m2 = true)
    (hw : ∀ c ∈ w, pyIsSpace c = true)
    (hk : markerOK allowNN k1 k2 = true) :
    readTimeToken allowNN (hd ++ ':' :: m1 :: m2 :: (w ++ k1 :: k2 :: rest))
      = some (hd ++ ':' :: m1 :: m2 :: (w ++ [k1, k2]), rest) := by
  have hka : pyIsSpace k1 = false := markerOK_not_space hk
  have hcolon : isDigitN ':' = false := by decide
  have hdw : (w ++ k1 :: k2 :: rest).dropWhile pyIsSpace = k1 :: k2 :: rest := by
    rw [List.dropWhile_append_of_pos hw, List.dropWhile_cons, if_neg (by simp [hka])]
  have htw : (w ++ k1 :: k2 :: rest).takeWhile pyIsSpace = w := by
    rw [List.takeWhile_append_of_pos hw, List.takeWhile_cons, if_neg (by simp [hka]),
      List.append_nil]
  have hafter : afterColon allowNN hd (m1 :: m2 :: (w ++ k1 :: k2 :: rest))
      = some (hd ++ ':' :: m1 :: m2 :: (w ++ [k1, k2]), rest) := by
    simp only [afterColon, hm1, hm2, and_self, if_true, hdw, htw, hk]
  rcases hlen with hlen | hlen
  · obtain ⟨a, rfl⟩ := List.length_eq_one.mp hlen
    have ha : isDigitN a = true := hdig a (by simp)
    show readTimeToken allowNN (a :: ':' :: m1 :: m2 :: (w ++ k1 :: k2 :: rest)) = _
    simp only [readTimeToken, ha, hcolon, if_true, Bool.false_eq_true, if_false]
    exact hafter
  · obtain ⟨a, b, rfl⟩ := List.length_eq_two.mp hlen
    have ha : isDigitN a = true := hdig a (by simp)
    have hb : isDigitN b = true := hdig b (by simp)
    show readTimeToken allowNN (a :: b :: ':' :: m1 :: m2 :: (w ++ k1 :: k2 :: rest)) = _
    simp only [readTimeToken, ha, hb, if_true]
    exact hafter

/-- C2 (amended): a trimmed line made of a valid time token, a non-empty
separator drawn from hyphen, en-dash and whitespace, and a remainder whose
first character is outside that class (and which contains no newline), is
recognized by `program_line_re` with the remainder as the title group; the
em-dash is NOT in the separator class.  The record built from the match
carries `pyStrip` of that group as its title. -/
theorem program_line_separator {hd : List Char} {m1 m2 : Char} {w : List Char}
    {k1 k2 : Char} {sep rem : List Char}
    (hlen : hd.length = 1 ∨ hd.length = 2) (hdig : ∀ c ∈ hd, isDigitN c = true)
    (hm1 : isDigitN m1 = true) (hm2 : isDigitN m2 = true)
    (hw : ∀ c ∈ w, pyIsSpace c = true)
    (hk : markerOK true k1 k2 = true)
    (hsep : sep ≠ []) (hsepc : ∀ c ∈ sep, csep c = true)
    (hrne : rem ≠ [])
    (hrhead : ∀ c, rem.head? = some c → csep c = false)
    (hrnl : ∀ c ∈ rem, c ≠ '\n') :
    matchProgramLine (hd ++ ':' :: m1 :: m2 :: (w ++ k1 :: k2 :: (sep ++ rem)))
      = some (hd ++ ':' :: m1 :: m2 :: (w ++ [k1, k2]), rem) := by
  have hline : (hd ++ ':' :: m1 :: m2 :: (w ++ k1 :: k2 :: (sep ++ rem))).dropWhile pyIsSpace
      = hd ++ ':' :: m1 :: m2 :: (w ++ k1 :: k2 :: (sep ++ rem)) := by
    apply dropWhile_eq_self_of_head
    intro c hc
    rcases hlen with hlen | hlen
    · obtain ⟨a, rfl⟩ := List.length_eq_one.mp hlen
      simp only [List.cons_append, List.head?_cons, Option.some.injEq] at hc
      rw [← hc]
      exact digit_not_space (hdig a (by simp))
    · obtain ⟨a, b, rfl⟩ := List.length_eq_two.mp hlen
      simp only [List.cons_append, List.head?_cons, Option.some.injEq] at hc
      rw [← hc]
      exact digit_not_space (hdig a (by simp))
  have htake : (sep ++ rem).takeWhile csep = sep := by
    rw [List.takeWhile_append_of_pos hsepc, takeWhile_not_head hrhead, List.append_nil]
  have hdrop : (sep ++ rem).dropWhile csep = rem := by
    rw [List.dropWhile_append_of_pos hsepc]
    exact dropWhile_eq_self_of_head hrhead
  have hdnl : rem.dropWhile (fun c => c ≠ '\n') = [] := by
    rw [List.dropWhile_eq_nil_iff]
    intro x hx
    simp [hrnl x hx]
  have htnl : rem.takeWhile (fun c => c ≠ '\n') = rem := by
    rw [List.takeWhile_eq_self_iff]
    intro x hx
    simp [hrnl x hx]
  simp only [matchProgramLine, hline, readTimeToken_render hlen hdig hm1 hm2 hw hk,
    htake, hdrop]
  rw [if_neg hsep]
  simp only [tailCapture, hdnl, htnl]
  simp

/-- C2 counterexample: the claim fails for the em-dash separator.  The line
`5:00pm—Movie` is a time token, an em-dash, and a non-empty remainder, yet
`program_line_re` rejects it (its class holds only hyphen, en-dash and
whitespace), and parsing a file containing it emits no record. -/
theorem program_line_emdash_counterexample :
    matchProgramLine "5:00pm—Movie".toList = none ∧
    parse_schedule_file "abante.txt".toList "c".toList
      ["MONDAY".toList, "5:00pm—Movie".toList] = [] := by
  constructor
  · decide
  · decide

/-- Witness for the amended C2: a concrete hyphen-separated line. -/
theorem program_line_separator_witness :
    matchProgramLine "5:00pm - Movie".toList = some ("5:00pm".toList, "Movie".toList) := by
  have hrh : ∀ c : Char, ("Movie".toList : List Char).head? = some c → csep c = false := by
    intro c hc
    rw [show ("Movie".toList : List Char).head? = some 'M' from rfl] at hc
    injection hc with h3
    rw [← h3]
    decide
  have h := @program_line_separator ['5'] '0' '0' [] 'p' 'm' [' ', '-', ' '] "Movie".toList
    (by decide) (by decide) (by decide) (by decide) (by decide) (by decide)
    (by decide) (by decide) (by decide) hrh (by decide)
  simpa using h

theorem markerOK_mono {k1 k2 : Char} (h : markerOK false k1 k2 = true) :
    markerOK true k1 k2 = true := by
  simp only [markerOK, Bool.false_and, Bool.or_false] at h
  simp only [markerOK, h, Bool.true_or, Bool.or_true]

theorem afterColon_mono {hd r : List Char} {x : List Char × List Char}
    (h : afterColon false hd r = some x) : afterColon true hd r = some x := by
  rcases r with _ | ⟨m1, _ | ⟨m2, r2⟩⟩
  · exact absurd h (by simp [afterColon])
  · exact absurd h (by simp [afterColon])
  · by_cases hd12 : isDigitN m1 = true ∧ isDigitN m2 = true
    · rcases hdw : r2.dropWhile pyIsSpace with _ | ⟨k1, _ | ⟨k2, r4⟩⟩
      · simp only [afterColon, hd12, and_self, if_true, hdw] at h
        exact absurd h (by simp)
      · simp only [afterColon, hd12, and_self, if_true, hdw] at h
        exact absurd h (by simp)
      · simp only [afterColon, hd12, and_self, if_true, hdw] at h ⊢
        by_cases hmk : markerOK false k1 k2 = true
        · simp only [markerOK_mono hmk, if_true]
          simp only [hmk, if_true] at h
          exact h
        · rw [Bool.not_eq_true] at hmk
          simp only [hmk, Bool.false_eq_true, if_false] at h
          exact absurd h (by simp)
    · simp only [afterColon] at h
      rw [if_neg hd12] at h
      exact absurd h (by simp)

theorem readTimeToken_mono {s : List Char} {x : List Char × List Char}
    (h : readTimeToken false s = some x) : readTimeToken true s = some x := by
  rcases s with _ | ⟨c1, _ | ⟨c2, rest2⟩⟩
  · exact absurd h (by simp [readTimeToken])
  · by_cases h1 : isDigitN c1 = true
    · simp only [readTimeToken, h1, if_true] at h
      exact absurd h (by simp)
    · rw [Bool.not_eq_true] at h1
      simp only [readTimeToken, h1, Bool.false_eq_true, if_false] at h
      exact absurd h (by simp)
  · by_cases h1 : isDigitN c1 = true
    · by_cases h2 : isDigitN c2 = true
      · rcases rest2 with _ | ⟨c3, rest3⟩
        · simp only [readTimeToken, h1, h2, if_true] at h
          exact absurd h (by simp)
        · by_cases h3 : c3 = ':'
          · subst h3
            simp only [readTimeToken, h1, h2, if_true] at h ⊢
            exact afterColon_mono h
          · simp only [readTimeToken, h1, h2, if_true] at h
            split at h
            all_goals first
              | exact absurd h (by simp)
              | (rename_i heq
                 rw [List.cons.injEq] at heq
                 exact absurd heq.1 h3)
      · rw [Bool.not_eq_true] at h2
        by_cases hc2 : c2 = ':'
        · subst hc2
          simp only [readTimeToken, h1, h2, if_true, Bool.false_eq_true, if_false] at h ⊢
          exact afterColon_mono h
        · simp only [readTimeToken, h1, h2, if_true, Bool.false_eq_true, if_false] at h
          split at h
          all_goals first
            | exact absurd h (by simp)
            | (rename_i heq
               rw [List.cons.injEq] at heq
               exact absurd heq.1 hc2)
    · rw [Bool.not_eq_true] at h1
      simp only [readTimeToken, h1, Bool.false_eq_true, if_false] at h
      exact absurd h (by simp)

theorem dropWhile_dropWhile_subset {p q : Char → Bool}
    (hpq : ∀ c, q c = true → p c = true) :
    ∀ s : List Char, (s.dropWhile q).dropWhile p = s.dropWhile p
  | [] => rfl
  | c :: t => by
    by_cases hq : q c = true
    · rw [List.dropWhile_cons, if_pos hq, List.dropWhile_cons, if_pos (hpq c hq)]
      exact dropWhile_dropWhile_subset hpq t
    · rw [List.dropWhile_cons, if_neg hq]

theorem all_of_dropWhile {p q : Char → Bool} {s : List Char} (h : s.all p = true) :
    (s.dropWhile q).all p = true := by
  rw [List.all_eq_true] at h ⊢
  exact fun x hx => h x ((List.dropWhile_sublist q).subset hx)

/-- The success condition of `(.*)\s*$` (everything from the first newline
on is whitespace) is preserved by dropping a leading run of separator
characters. -/
theorem cond_dropWhile_csep : ∀ {s : List Char},
    ((s.dropWhile (fun c => c ≠ '\n')).all pyIsSpace = true) →
    (((s.dropWhile csep).dropWhile (fun c => c ≠ '\n')).all pyIsSpace = true)
  | [], h => h
  | c :: t, h => by
    by_cases hcs : csep c = true
    · rw [List.dropWhile_cons, if_pos hcs]
      apply cond_dropWhile_csep
      by_cases hnl : c = '\n'
      · rw [List.dropWhile_cons, if_neg (by simp [hnl])] at h
        simp only [List.all_cons, Bool.and_eq_true] at h
        exact all_of_dropWhile h.2
      · rw [List.dropWhile_cons, if_pos (by simp [hnl])] at h
        exact h
    · rw [List.dropWhile_cons, if_neg hcs]
      exact h

/-- C10: every line the lighttv column-aligned regex accepts is also
accepted by the general separator regex: its marker alternation is a subset
of the general one, and a run of two or more whitespace characters is a
valid separator run, so the fallback branch (tried only after the general
regex fails) never classifies a line the general regex rejected. -/
theorem lighttv_implies_general {l t ti : List Char}
    (h : matchLightTv l = some (t, ti)) : (matchProgramLine l).isSome = true := by
  unfold matchLightTv at h
  rcases e : readTimeToken false (l.dropWhile pyIsSpace) with _ | ⟨tok, r⟩
  · rw [e] at h
    exact absurd h (by simp)
  · rw [e] at h
    simp only at h
    split at h
    · rename_i hlen2
      have hcond : ((r.dropWhile pyIsSpace).dropWhile (fun c => c ≠ '\n')).all pyIsSpace
          = true := by
        rcases htc : tailCapture (r.dropWhile pyIsSpace) with _ | g2
        · rw [htc] at h
          exact absurd h (by simp)
        · unfold tailCapture at htc
          split at htc
          · assumption
          · exact absurd htc (by simp)
      rcases r with _ | ⟨c, r2⟩
      · simp at hlen2
      · have hcsp : pyIsSpace c = true := by
          by_contra hns
          rw [Bool.not_eq_true] at hns
          rw [List.takeWhile_cons, if_neg (by simp [hns])] at hlen2
          simp at hlen2
        unfold matchProgramLine
        rw [readTimeToken_mono e]
        simp only
        rw [if_neg (by
          rw [List.takeWhile_cons, if_pos (by simp [csep, hcsp])]
          simp)]
        have hdd : (c :: r2).dropWhile csep = ((c :: r2).dropWhile pyIsSpace).dropWhile csep :=
          (dropWhile_dropWhile_subset (fun d hd => by simp [csep, hd]) _).symm
        rw [hdd]
        unfold tailCapture
        rw [if_pos (cond_dropWhile_csep hcond)]
        simp
    · exact absurd h (by simp)

/-- Witness for C10 at a concrete column-aligned line. -/
theorem lighttv_implies_general_witness :
    matchLightTv "7:15am   Col".toList = some ("7:15am".toList, "Col".toList) ∧
    (matchProgramLine "7:15am   Col".toList).isSome = true := by
  refine ⟨by decide, ?_⟩
  exact @lighttv_implies_general "7:15am   Col".toList "7:15am".toList "Col".toList (by decide)

/-! ### Schedule Parser output shape (C3) -/

/-- C3: the Schedule Parser's output is sorted by the key (day index, 24-hour
hour, minute) under Python's lexicographic tuple comparison; every record
whose time token fails to normalize is dropped; the output is exactly (a
permutation realized by the stable sort of) the emitted records that
normalize, each carrying its original, un-normalized time token. -/
theorem parse_schedule_file_sorted_filtered (filepath cid : List Char)
    (lines : List (List Char)) :
    List.Sorted recLe (parse_schedule_file filepath cid lines) ∧
    (∀ p ∈ parse_schedule_file filepath cid lines,
      (parse_time_to_24h p.time_str).isSome = true) ∧
    (parse_schedule_file filepath cid lines).Perm
      ((parseLines filepath cid lines none).filter
        (fun p => (parse_time_to_24h p.time_str).isSome)) := by
  refine ⟨List.sorted_insertionSort recLe _, ?_, List.perm_insertionSort recLe _⟩
  intro p hp
  have hp2 : p ∈ (parseLines filepath cid lines none).filter
      (fun p => (parse_time_to_24h p.time_str).isSome) :=
    (List.perm_insertionSort recLe _).subset hp
  exact (List.mem_filter.mp hp2).2

/-! ### Stop-time inference (C1) -/

theorem assignStops_length : ∀ l : List DatedInstance, (assignStops l).length = l.length
  | [] => rfl
  | [_] => rfl
  | _ :: b :: rest => by
    show (assignStops (b :: rest)).length + 1 = _
    rw [assignStops_length (b :: rest)]
    rfl

theorem assignStops_map_start :
    ∀ l : List DatedInstance, (assignStops l).map (fun p => p.start) = l.map (fun d => d.start_dt)
  | [] => rfl
  | [_] => rfl
  | a :: b :: rest => by
    show a.start_dt :: (assignStops (b :: rest)).map (fun p => p.start) = _
    rw [assignStops_map_start (b :: rest)]
    rfl

theorem assignStops_head_start (b : List DatedInstance) (a : DatedInstance)
    (h : 0 < (assignStops (a :: b)).length) :
    ((assignStops (a :: b)).get ⟨0, h⟩).start = a.start_dt := by
  cases b <;> rfl

theorem assignStops_chain : ∀ (l : List DatedInstance) (i : Nat)
    (hi : i + 1 < (assignStops l).length),
    ((assignStops l).get ⟨i, Nat.lt_of_succ_lt hi⟩).stop
      = ((assignStops l).get ⟨i + 1, hi⟩).start
  | [], i, hi => by simp [assignStops] at hi
  | [a], i, hi => by simp [assignStops] at hi
  | a :: b :: rest, 0, hi => by
    show b.start_dt = ((assignStops (b :: rest)).get ⟨0, _⟩).start
    rw [assignStops_head_start]
  | a :: b :: rest, i + 1, hi => by
    have hi2 : i + 1 < (assignStops (b :: rest)).length := by
      have : (assignStops (a :: b :: rest)).length = (assignStops (b :: rest)).length + 1 := rfl
      omega
    have ih := assignStops_chain (b :: rest) i hi2
    exact ih

theorem assignStops_last? : ∀ (l : List DatedInstance) (p : Programme),
    (assignStops l).getLast? = some p → p.stop = p.start + 60
  | [], p, h => by simp [assignStops] at h
  | [a], p, h => by
    rw [show assignStops [a]
        = [⟨a.start_dt, a.start_dt + 60, a.channel_id, pyStrip a.title⟩] from rfl] at h
    simp only [List.getLast?_singleton, Option.some.injEq] at h
    rw [← h]
  | a :: b :: rest, p, h => by
    rw [show assignStops (a :: b :: rest)
        = ⟨a.start_dt, b.start_dt, a.channel_id, pyStrip a.title⟩ :: assignStops (b :: rest)
        from rfl] at h
    rcases rest with _ | ⟨c, rest2⟩
    · rw [show assignStops [b]
          = [⟨b.start_dt, b.start_dt + 60, b.channel_id, pyStrip b.title⟩] from rfl] at h
      rw [List.getLast?_cons_cons] at h
      simp only [List.getLast?_singleton, Option.some.injEq] at h
      rw [← h]
    · rw [show assignStops (b :: c :: rest2)
          = ⟨b.start_dt, c.start_dt, b.channel_id, pyStrip b.title⟩ :: assignStops (c :: rest2)
          from rfl] at h
      rw [List.getLast?_cons_cons] at h
      apply assignStops_last? (b :: c :: rest2) p
      rw [show assignStops (b :: c :: rest2)
          = ⟨b.start_dt, c.start_dt, b.channel_id, pyStrip b.title⟩ :: assignStops (c :: rest2)
          from rfl]
      exact h

/-- C1: for every channel, the projected window instances, once sorted
ascending by start timestamp, receive stop timestamps such that every
programme except the last stops exactly at the start of the immediately
following programme, and the last programme of the window stops exactly one
hour (60 minutes) after its start. -/
theorem channelProgrammes_stop_chain (cid : List Char) (progs : List ProgramRecord)
    (today : Nat) :
    List.Pairwise (fun a b : Programme => a.start ≤ b.start)
      (channelProgrammes cid progs today) ∧
    (∀ i, ∀ hi : i + 1 < (channelProgrammes cid progs today).length,
      ((channelProgrammes cid progs today).get ⟨i, Nat.lt_of_succ_lt hi⟩).stop
        = ((channelProgrammes cid progs today).get ⟨i + 1, hi⟩).start) ∧
    (∀ p : Programme, (channelProgrammes cid progs today).getLast? = some p →
      p.stop = p.start + 60) := by
  refine ⟨?_, ?_, ?_⟩
  · have hs : List.Sorted startLe (channelInstances cid progs today) :=
      List.sorted_insertionSort startLe _
    have hmap : ((channelInstances cid progs today).map (fun d => d.start_dt)).Pairwise
        (fun a b : Nat => a ≤ b) := by
      rw [List.pairwise_map]
      exact hs
    rw [← assignStops_map_start, List.pairwise_map] at hmap
    exact hmap
  · exact fun i hi => assignStops_chain _ i hi
  · exact fun p hp => assignStops_last? _ p hp

/-- Witness for C1: a one-record weekly template projected over the 28-day
window yields four instances; the stop of the first equals the start of the
second, and the last programme stops one hour after its start. -/
theorem channelProgrammes_stop_chain_witness :
    ((channelProgrammes "c.ph".toList
        [⟨"MONDAY".toList, "5:00 PM".toList, "A".toList, "c.ph".toList⟩] 0).get
      ⟨0, by decide⟩).stop
      = ((channelProgrammes "c.ph".toList
        [⟨"MONDAY".toList, "5:00 PM".toList, "A".toList, "c.ph".toList⟩] 0).get
      ⟨1, by decide⟩).start ∧
    (⟨31260, 31320, "c.ph".toList, "A".toList⟩ : Programme).stop
      = (⟨31260, 31320, "c.ph".toList, "A".toList⟩ : Programme).start + 60 := by
  constructor
  · exact (channelProgrammes_stop_chain "c.ph".toList
      [⟨"MONDAY".toList, "5:00 PM".toList, "A".toList, "c.ph".toList⟩] 0).2.1 0 (by decide)
  · exact (channelProgrammes_stop_chain "c.ph".toList
      [⟨"MONDAY".toList, "5:00 PM".toList, "A".toList, "c.ph".toList⟩] 0).2.2
      ⟨31260, 31320, "c.ph".toList, "A".toList⟩ (by decide)

/-! ### Seven-day round trip (C8) -/

/-- A well-formed program line (for C8): after stripping, it is not a day
header, it matches the general program regex with token group `t` and title
group `ti`, the stripped title is non-empty, and the stripped token
normalizes. -/
def GoodLine (l t ti : List Char) : Prop :=
  matchProgramLine (pyStrip l) = some (t, ti) ∧
  dayIndex? (headerKey (pyStrip l)) = none ∧
  pyStrip ti ≠ [] ∧
  (parse_time_to_24h (pyStrip t)).isSome = true

theorem parseLines_day (fp cid : List Char) (ls : List (List Char))
    (cur : Option (List Char)) (d : List Char)
    (hd1 : pyStrip d = d) (hd2 : d ≠ []) (hd4 : headerKey d = d)
    (hd3 : (dayIndex? d).isSome = true) :
    parseLines fp cid (d :: ls) cur = parseLines fp cid ls (some d) := by
  simp only [parseLines, hd1, hd4]
  rw [if_neg hd2, if_pos hd3]

theorem parseLines_prog (fp cid : List Char) (ls : List (List Char))
    (d l t ti : List Char) (hg : GoodLine l t ti) :
    parseLines fp cid (l :: ls) (some d)
      = ⟨d, pyStrip t, pyStrip ti, cid⟩ :: parseLines fp cid ls (some d) := by
  obtain ⟨hmatch, hday, hti, -⟩ := hg
  have hne : pyStrip l ≠ [] := by
    intro e
    rw [e, show matchProgramLine [] = none from rfl] at hmatch
    cases hmatch
  have hlm : lineMatch fp (pyStrip l) = some (t, ti) := by
    unfold lineMatch
    rw [hmatch]
    rfl
  simp only [parseLines, hlm]
  rw [if_neg hne, if_neg (by simp [hday]), if_neg hti]

theorem recKey_fst (p : ProgramRecord) : (recKey p).1 = (dayIndex? p.day).getD 0 := by
  rcases e : parse_time_to_24h p.time_str with _ | ⟨hh, mm⟩ <;> simp [recKey, e]

theorem recLe_of_day_lt {p q : ProgramRecord}
    (h : (dayIndex? p.day).getD 0 < (dayIndex? q.day).getD 0) : recLe p q := by
  unfold recLe keyLe
  left
  rw [recKey_fst, recKey_fst]
  exact h

/-- A record list whose day names have strictly increasing day indices is
sorted for the parser's sort relation, whatever the time components are. -/
theorem sorted_of_day_pairwise {l : List ProgramRecord}
    (h : (l.map (fun p => p.day)).Pairwise
      (fun a b => (dayIndex? a).getD 0 < (dayIndex? b).getD 0)) :
    List.Sorted recLe l :=
  (List.pairwise_map.mp h).imp recLe_of_day_lt

/-- C8: parsing a file with the seven day headers in order, each followed by
exactly one well-formed program line, yields exactly seven weekly records,
one per day in day order, each carrying the stripped title group of its
line. -/
theorem seven_day_roundtrip (fp cid : List Char)
    (l0 t0 ti0 l1 t1 ti1 l2 t2 ti2 l3 t3 ti3 l4 t4 ti4 l5 t5 ti5 l6 t6 ti6 : List Char)
    (h0 : GoodLine l0 t0 ti0) (h1 : GoodLine l1 t1 ti1) (h2 : GoodLine l2 t2 ti2)
    (h3 : GoodLine l3 t3 ti3) (h4 : GoodLine l4 t4 ti4) (h5 : GoodLine l5 t5 ti5)
    (h6 : GoodLine l6 t6 ti6) :
    parse_schedule_file fp cid
      ["MONDAY".toList, l0, "TUESDAY".toList, l1, "WEDNESDAY".toList, l2,
       "THURSDAY".toList, l3, "FRIDAY".toList, l4, "SATURDAY".toList, l5,
       "SUNDAY".toList, l6]
      = [⟨"MONDAY".toList, pyStrip t0, pyStrip ti0, cid⟩,
         ⟨"TUESDAY".toList, pyStrip t1, pyStrip ti1, cid⟩,
         ⟨"WEDNESDAY".toList, pyStrip t2, pyStrip ti2, cid⟩,
         ⟨"THURSDAY".toList, pyStrip t3, pyStrip ti3, cid⟩,
         ⟨"FRIDAY".toList, pyStrip t4, pyStrip ti4, cid⟩,
         ⟨"SATURDAY".toList, pyStrip t5, pyStrip ti5, cid⟩,
         ⟨"SUNDAY".toList, pyStrip t6, pyStrip ti6, cid⟩] := by
  unfold parse_schedule_file
  rw [parseLines_day fp cid _ _ _ (by decide) (by decide) (by decide) (by decide),
    parseLines_prog fp cid _ _ _ _ _ h0,
    parseLines_day fp cid _ _ _ (by decide) (by decide) (by decide) (by decide),
    parseLines_prog fp cid _ _ _ _ _ h1,
    parseLines_day fp cid _ _ _ (by decide) (by decide) (by decide) (by decide),
    parseLines_prog fp cid _ _ _ _ _ h2,
    parseLines_day fp cid _ _ _ (by decide) (by decide) (by decide) (by decide),
    parseLines_prog fp cid _ _ _ _ _ h3,
    parseLines_day fp cid _ _ _ (by decide) (by decide) (by decide) (by decide),
    parseLines_prog fp cid _ _ _ _ _ h4,
    parseLines_day fp cid _ _ _ (by decide) (by decide) (by decide) (by decide),
    parseLines_prog fp cid _ _ _ _ _ h5,
    parseLines_day fp cid _ _ _ (by decide) (by decide) (by decide) (by decide),
    parseLines_prog fp cid _ _ _ _ _ h6]
  rw [show parseLines fp cid [] (some "SUNDAY".toList) = [] from rfl]
  rw [List.filter_cons_of_pos (by simpa using h0.2.2.2),
    List.filter_cons_of_pos (by simpa using h1.2.2.2),
    List.filter_cons_of_pos (by simpa using h2.2.2.2),
    List.filter_cons_of_pos (by simpa using h3.2.2.2),
    List.filter_cons_of_pos (by simpa using h4.2.2.2),
    List.filter_cons_of_pos (by simpa using h5.2.2.2),
    List.filter_cons_of_pos (by simpa using h6.2.2.2),
    List.filter_nil]
  apply List.Sorted.insertionSort_eq
  apply sorted_of_day_pairwise
  show List.Pairwise
    (fun a b : List Char => (dayIndex? a).getD 0 < (dayIndex? b).getD 0)
    ["MONDAY".toList, "TUESDAY".toList, "WEDNESDAY".toList, "THURSDAY".toList,
     "FRIDAY".toList, "SATURDAY".toList, "SUNDAY".toList]
  decide

/-- Witness for C8: a concrete seven-day file. -/
theorem seven_day_roundtrip_witness :
    parse_schedule_file "c.txt".toList "c".toList
      ["MONDAY".toList, "5:00 PM - A".toList, "TUESDAY".toList, "6:30 AM - B".toList,
       "WEDNESDAY".toList, "12:00nn - C".toList, "THURSDAY".toList, "1:15 pm - D".toList,
       "FRIDAY".toList, "7:00AM - E".toList, "SATURDAY".toList, "9:45 PM - F".toList,
       "SUNDAY".toList, "10:10 am - G".toList]
      = [⟨"MONDAY".toList, pyStrip "5:00 PM".toList, pyStrip "A".toList, "c".toList⟩,
         ⟨"TUESDAY".toList, pyStrip "6:30 AM".toList, pyStrip "B".toList, "c".toList⟩,
         ⟨"WEDNESDAY".toList, pyStrip "12:00nn".toList, pyStrip "C".toList, "c".toList⟩,
         ⟨"THURSDAY".toList, pyStrip "1:15 pm".toList, pyStrip "D".toList, "c".toList⟩,
         ⟨"FRIDAY".toList, pyStrip "7:00AM".toList, pyStrip "E".toList, "c".toList⟩,
         ⟨"SATURDAY".toList, pyStrip "9:45 PM".toList, pyStrip "F".toList, "c".toList⟩,
         ⟨"SUNDAY".toList, pyStrip "10:10 am".toList, pyStrip "G".toList, "c".toList⟩] :=
  seven_day_roundtrip "c.txt".toList "c".toList
    "5:00 PM - A".toList "5:00 PM".toList "A".toList
    "6:30 AM - B".toList "6:30 AM".toList "B".toList
    "12:00nn - C".toList "12:00nn".toList "C".toList
    "1:15 pm - D".toList "1:15 pm".toList "D".toList
    "7:00AM - E".toList "7:00AM".toList "E".toList
    "9:45 PM - F".toList "9:45 PM".toList "F".toList
    "10:10 am - G".toList "10:10 am".toList "G".toList
    (by constructor <;> first | decide | (constructor <;> first | decide | (constructor <;> decide)))
    (by constructor <;> first | decide | (constructor <;> first | decide | (constructor <;> decide)))
    (by constructor <;> first | decide | (constructor <;> first | decide | (constructor <;> decide)))
    (by constructor <;> first | decide | (constructor <;> first | decide | (constructor <;> decide)))
    (by constructor <;> first | decide | (constructor <;> first | decide | (constructor <;> decide)))
    (by constructor <;> first | decide | (constructor <;> first | decide | (constructor <;> decide)))
    (by constructor <;> first | decide | (constructor <;> first | decide | (constructor <;> decide)))

/-! ### Serialization header (C6) -/

theorem pyRepGo_skip (needle repl : List Char) : ∀ (a rest : List Char),
    pyRepGo needle repl a.length (a ++ rest) = pyRepGo needle repl 0 rest
  | [], _ => rfl
  | _ :: a2, rest => pyRepGo_skip needle repl a2 rest

theorem pyReplace_needle_starts {needle repl rest : List Char} (hne : needle ≠ []) :
    pyReplace needle repl (needle ++ rest) = repl ++ pyReplace needle repl rest := by
  unfold pyReplace
  rw [if_neg hne, if_neg hne]
  rcases needle with _ | ⟨n0, n2⟩
  · exact absurd rfl hne
  · have hpre : (n0 :: n2).isPrefixOf (n0 :: (n2 ++ rest)) = true := by
      rw [List.isPrefixOf_iff_prefix]
      exact ⟨rest, by simp⟩
    show pyRepGo (n0 :: n2) repl 0 (n0 :: (n2 ++ rest)) = _
    simp only [pyRepGo, hpre, if_true]
    congr 1
    rw [show (n0 :: n2).length - 1 = n2.length from by simp]
    exact pyRepGo_skip (n0 :: n2) repl n2 rest

/-- C6 counterexample: the replace at source line 219 looks only for the
single-quoted declaration, so with a serializer that double-quotes its
declaration no DOCTYPE is inserted — the claimed property does not hold
regardless of the serializer's quoting. -/
theorem finalize_dquote_counterexample :
    ¬ ((xmlDeclWith dquote ++ '\n' :: doctypeStr).isPrefixOf
        (finalizeXml dquote "<tv />".toList) = true) := by
  decide

/-- C6 (amended): with the single-quoted declaration that `ElementTree`
actually emits, the finalized document begins with the double-quoted XML
declaration followed (after the newline in the replacement text) by the
fixed DOCTYPE referencing `xmltv.dtd`, for every serialized body. -/
theorem finalize_squote_prefix (body : List Char) :
    (xmlDeclWith dquote ++ '\n' :: doctypeStr).isPrefixOf
      (finalizeXml squote body) = true := by
  unfold finalizeXml serializeTostring
  rw [pyReplace_needle_starts (by decide)]
  rw [List.isPrefixOf_iff_prefix]
  exact List.prefix_append _ _

/-! ### The channel identifier order (for C5, C7) -/

theorem strLtB_asymm : ∀ {a b : List Char}, strLtB a b = true → strLtB b a = false
  | [], [], h => by simp [strLtB] at h
  | [], _ :: _, _ => rfl
  | _ :: _, [], h => by simp [strLtB] at h
  | x :: as, y :: bs, h => by
    simp only [strLtB, Bool.or_eq_true, Bool.and_eq_true, decide_eq_true_eq] at h
    simp only [strLtB, Bool.or_eq_false_iff, Bool.and_eq_false_iff, decide_eq_false_iff_not]
    rcases h with h | ⟨hxy, hrec⟩
    · constructor
      · omega
      · left
        intro he
        rw [he] at h
        omega
    · subst hxy
      refine ⟨by omega, Or.inr (strLtB_asymm hrec)⟩

theorem strLtB_connex : ∀ {a b : List Char},
    strLtB a b = false → strLtB b a = false → a = b
  | [], [], _, _ => rfl
  | [], _ :: _, h, _ => by simp [strLtB] at h
  | _ :: _, [], _, h => by simp [strLtB] at h
  | x :: as, y :: bs, h1, h2 => by
    simp only [strLtB, Bool.or_eq_false_iff, Bool.and_eq_false_iff,
      decide_eq_false_iff_not] at h1 h2
    have hxy : x = y := by
      have ha := h1.1
      have hb := h2.1
      have hn : x.toNat = y.toNat := by omega
      exact_mod_cast Char.ofNat_toNat x ▸ Char.ofNat_toNat y ▸ congrArg Char.ofNat hn
    subst hxy
    rcases h1.2 with hc | hrec1
    · exact absurd rfl hc
    · rcases h2.2 with hc | hrec2
      · exact absurd rfl hc
      · rw [strLtB_connex hrec1 hrec2]

theorem strLtB_trans : ∀ {a b c : List Char},
    strLtB a b = true → strLtB b c = true → strLtB a c = true
  | [], _ :: _, [], _, h2 => by simp [strLtB] at h2
  | [], _ :: _, _ :: _, _, _ => rfl
  | [], [], _, h1, _ => by simp [strLtB] at h1
  | _ :: _, [], _, h1, _ => by simp [strLtB] at h1
  | _ :: _, _ :: _, [], _, h2 => by simp [strLtB] at h2
  | x :: as, y :: bs, z :: cs, h1, h2 => by
    simp only [strLtB, Bool.or_eq_true, Bool.and_eq_true, decide_eq_true_eq] at h1 h2 ⊢
    rcases h1 with h1 | ⟨hxy, hr1⟩
    · rcases h2 with h2 | ⟨hyz, hr2⟩
      · left
        omega
      · subst hyz
        left
        exact h1
    · subst hxy
      rcases h2 with h2 | ⟨hyz, hr2⟩
      · left
        exact h2
      · subst hyz
        exact Or.inr ⟨rfl, strLtB_trans hr1 hr2⟩

instance : IsTotal (List Char) chanLe :=
  ⟨fun a b => by
    unfold chanLe
    by_cases h : strLtB b a = true
    · right
      exact strLtB_asymm h
    · left
      exact Bool.not_eq_true _ |>.mp h⟩

instance : IsTrans (List Char) chanLe :=
  ⟨fun a b c hab hbc => by
    unfold chanLe at hab hbc ⊢
    by_cases hca : strLtB c a = true
    · by_cases hcb : strLtB c b = true
      · rw [hcb] at hbc
        cases hbc
      · by_cases hbc2 : strLtB b c = true
        · have := strLtB_trans hbc2 hca
          rw [this] at hab
          cases hab
        · have hbceq := strLtB_connex
            (Bool.not_eq_true _ |>.mp hbc2) (Bool.not_eq_true _ |>.mp hcb)
          subst hbceq
          rw [hca] at hab
          cases hab
    · exact Bool.not_eq_true _ |>.mp hca⟩

instance : IsAntisymm (List Char) chanLe :=
  ⟨fun a b hab hba => by
    unfold chanLe at hab hba
    exact strLtB_connex hba hab⟩

/-! ### Grouping by channel (for C5, C7) -/

/-- Lookup in the insertion-ordered association list, defaulting to `[]`. -/
def lookupD (g : List (List Char × List ProgramRecord)) (k : List Char) :
    List ProgramRecord :=
  ((g.find? (fun e => e.1 = k)).map (fun e => e.2)).getD []

theorem addTo_keys (g : List (List Char × List ProgramRecord)) (p : ProgramRecord) :
    (addTo g p).map Prod.fst
      = if p.channel_id ∈ g.map Prod.fst then g.map Prod.fst
        else g.map Prod.fst ++ [p.channel_id] := by
  induction g with
  | nil => simp [addTo]
  | cons kv rest ih =>
    obtain ⟨k, vs⟩ := kv
    by_cases hk : k = p.channel_id
    · subst hk
      simp [addTo]
    · simp only [addTo, if_neg hk, List.map_cons]
      rw [ih]
      by_cases hmem : p.channel_id ∈ rest.map Prod.fst
      · rw [if_pos hmem,
          if_pos (by simp only [List.map_cons, List.mem_cons]; exact Or.inr hmem)]
      · rw [if_neg hmem, if_neg (by
          simp only [List.map_cons, List.mem_cons]
          rintro (he | hm2)
          · exact hk he.symm
          · exact hmem hm2)]
        rfl

theorem addTo_keys_mem (g : List (List Char × List ProgramRecord)) (p : ProgramRecord)
    (c : List Char) :
    c ∈ (addTo g p).map Prod.fst ↔ c ∈ g.map Prod.fst ∨ c = p.channel_id := by
  rw [addTo_keys]
  split
  · rename_i hm
    constructor
    · exact Or.inl
    · rintro (h | rfl)
      · exact h
      · exact hm
  · simp

theorem addTo_nodup {g : List (List Char × List ProgramRecord)} {p : ProgramRecord}
    (h : (g.map Prod.fst).Nodup) : ((addTo g p).map Prod.fst).Nodup := by
  rw [addTo_keys]
  split
  · exact h
  · rename_i hm
    simp [List.nodup_append, h, hm]

theorem lookupD_addTo (g : List (List Char × List ProgramRecord)) (p : ProgramRecord)
    (k : List Char) :
    lookupD (addTo g p) k
      = if k = p.channel_id then lookupD g k ++ [p] else lookupD g k := by
  induction g with
  | nil =>
    by_cases hk : k = p.channel_id
    · subst hk
      rw [if_pos rfl]
      show lookupD [(p.channel_id, [p])] p.channel_id = lookupD [] p.channel_id ++ [p]
      unfold lookupD
      rw [List.find?_cons_of_pos _ (by simp)]
      rfl
    · rw [if_neg hk]
      show lookupD [(p.channel_id, [p])] k = lookupD [] k
      unfold lookupD
      rw [List.find?_cons_of_neg _ (by simp; exact fun h => hk h.symm)]
  | cons kv rest ih =>
    obtain ⟨k2, vs⟩ := kv
    by_cases hk2 : k2 = p.channel_id
    · simp only [addTo, if_pos hk2]
      by_cases hk : k = k2
      · rw [if_pos (hk.trans hk2)]
        unfold lookupD
        rw [List.find?_cons_of_pos _ (by simp [hk]),
          List.find?_cons_of_pos _ (by simp [hk])]
        rfl
      · rw [if_neg (fun he => hk (he.trans hk2.symm))]
        unfold lookupD
        rw [List.find?_cons_of_neg _ (by simp; exact fun h => hk h.symm),
          List.find?_cons_of_neg _ (by simp; exact fun h => hk h.symm)]
    · simp only [addTo, if_neg hk2]
      by_cases hk : k = k2
      · rw [if_neg (fun he => hk2 (hk.symm.trans he))]
        unfold lookupD
        rw [List.find?_cons_of_pos _ (by simp [hk]),
          List.find?_cons_of_pos _ (by simp [hk])]
      · unfold lookupD
        rw [List.find?_cons_of_neg _ (by simp; exact fun h => hk h.symm),
          List.find?_cons_of_neg _ (by simp; exact fun h => hk h.symm)]
        exact ih

theorem find?_eq_of_mem_nodup {g : List (List Char × List ProgramRecord)}
    {kv : List Char × List ProgramRecord}
    (hnd : (g.map Prod.fst).Nodup) (hm : kv ∈ g) :
    g.find? (fun e => e.1 = kv.1) = some kv := by
  induction g with
  | nil => cases hm
  | cons a rest ih =>
    rcases List.mem_cons.mp hm with rfl | hm2
    · rw [List.find?_cons_of_pos _ (by simp)]
    · have ha : a.1 ≠ kv.1 := by
        intro he
        simp only [List.map_cons, List.nodup_cons] at hnd
        exact hnd.1 (he ▸ List.mem_map_of_mem Prod.fst hm2)
      rw [List.find?_cons_of_neg _ (by simp [ha])]
      exact ih (by simp only [List.map_cons, List.nodup_cons] at hnd; exact hnd.2) hm2

theorem foldl_addTo_val : ∀ (l : List ProgramRecord)
    (g : List (List Char × List ProgramRecord)),
    (g.map Prod.fst).Nodup → ∀ kv ∈ l.foldl addTo g,
      kv.2 = lookupD g kv.1 ++ l.filter (fun p => p.channel_id = kv.1)
  | [], g, hnd, kv, hm => by
    simp only [List.foldl_nil] at hm
    simp only [List.filter_nil, List.append_nil]
    unfold lookupD
    rw [find?_eq_of_mem_nodup hnd hm]
    rfl
  | p :: l, g, hnd, kv, hm => by
    simp only [List.foldl_cons] at hm
    have hval := foldl_addTo_val l (addTo g p) (addTo_nodup hnd) kv hm
    rw [lookupD_addTo] at hval
    rw [List.filter_cons]
    by_cases hk : kv.1 = p.channel_id
    · rw [if_pos hk] at hval
      rw [hval, if_pos (by simp [hk.symm])]
      simp [List.append_assoc]
    · rw [if_neg hk] at hval
      rw [hval, if_neg (by simp; exact fun he => hk he.symm)]

theorem groupBy_val {l : List ProgramRecord} {kv : List Char × List ProgramRecord}
    (hm : kv ∈ groupByChannel l) :
    kv.2 = l.filter (fun p => p.channel_id = kv.1) := by
  have := foldl_addTo_val l [] (by simp) kv hm
  simpa [lookupD] using this

theorem groupBy_nodup (l : List ProgramRecord) :
    ((groupByChannel l).map Prod.fst).Nodup := by
  have haux : ∀ (l2 : List ProgramRecord) (g : List (List Char × List ProgramRecord)),
      (g.map Prod.fst).Nodup → ((l2.foldl addTo g).map Prod.fst).Nodup := by
    intro l2
    induction l2 with
    | nil => exact fun g h => h
    | cons p l2 ih => exact fun g h => ih _ (addTo_nodup h)
  exact haux l [] (by simp)

theorem foldl_addTo_keys_mem : ∀ (l : List ProgramRecord)
    (g : List (List Char × List ProgramRecord)) (c : List Char),
    c ∈ (l.foldl addTo g).map Prod.fst
      ↔ c ∈ g.map Prod.fst ∨ c ∈ l.map (fun p => p.channel_id)
  | [], g, c => by simp
  | p :: l, g, c => by
    simp only [List.foldl_cons, List.map_cons, List.mem_cons]
    rw [foldl_addTo_keys_mem l (addTo g p) c, addTo_keys_mem]
    tauto

theorem groupBy_keys_mem {l : List ProgramRecord} {c : List Char} :
    c ∈ (groupByChannel l).map Prod.fst ↔ c ∈ l.map (fun p => p.channel_id) := by
  unfold groupByChannel
  rw [foldl_addTo_keys_mem]
  simp

/-- A pair list every entry of which stores `f` of its key equals the map of
`f` over its key sequence. -/
theorem pairs_eq_map_fst {α β : Type} (f : α → β) : ∀ {xs : List (α × β)},
    (∀ p ∈ xs, p.2 = f p.1) → xs = (xs.map Prod.fst).map (fun k => (k, f k))
  | [], _ => rfl
  | (k, v) :: rest, h => by
    have hv : v = f k := h (k, v) (List.mem_cons_self _ _)
    simp only [List.map_cons]
    rw [← pairs_eq_map_fst f (fun p hp => h p (List.mem_cons_of_mem _ hp)), hv]

theorem groupBy_eq_map (l : List ProgramRecord) :
    groupByChannel l = ((groupByChannel l).map Prod.fst).map
      (fun k => (k, l.filter (fun p => p.channel_id = k))) :=
  pairs_eq_map_fst _ (fun _ hp => groupBy_val hp)

/-! ### Per-channel programme blocks -/

theorem channelDated_channel {cid : List Char} {progs : List ProgramRecord}
    {today : Nat} : ∀ d ∈ channelDated cid progs today, d.channel_id = cid := by
  intro d hd
  unfold channelDated at hd
  rw [List.mem_flatMap] at hd
  obtain ⟨i, -, hd⟩ := hd
  unfold projectDay at hd
  rw [List.mem_filterMap] at hd
  obtain ⟨p, -, hp⟩ := hd
  rcases e : parse_time_to_24h p.time_str with _ | v
  · rw [e] at hp
    cases hp
  · rw [e] at hp
    simp only [Option.map] at hp
    cases hp
    rfl

theorem assignStops_channel : ∀ (l : List DatedInstance) (pr : Programme),
    pr ∈ assignStops l → ∃ d ∈ l, pr.channel = d.channel_id
  | [], _, h => by cases h
  | [a], pr, h => by
    rcases List.mem_singleton.mp h with rfl
    exact ⟨a, by simp, rfl⟩
  | a :: b :: rest, pr, h => by
    rcases List.mem_cons.mp h with rfl | h2
    · exact ⟨a, by simp, rfl⟩
    · obtain ⟨d, hd, he⟩ := assignStops_channel (b :: rest) pr h2
      exact ⟨d, List.mem_cons_of_mem a hd, he⟩

theorem channelProgrammes_channel {cid : List Char} {progs : List ProgramRecord}
    {today : Nat} : ∀ pr ∈ channelProgrammes cid progs today, pr.channel = cid := by
  intro pr hpr
  obtain ⟨d, hd, he⟩ := assignStops_channel _ pr hpr
  rw [he]
  exact channelDated_channel d ((List.perm_insertionSort startLe _).subset hd)

/-- The per-channel programme block ascends by start timestamp. -/
theorem channelProgrammes_sorted_start (cid : List Char) (progs : List ProgramRecord)
    (today : Nat) :
    List.Pairwise (fun a b : Programme => a.start ≤ b.start)
      (channelProgrammes cid progs today) := by
  have hs : List.Sorted startLe (channelInstances cid progs today) :=
    List.sorted_insertionSort startLe _
  have hmap : ((channelInstances cid progs today).map (fun d => d.start_dt)).Pairwise
      (fun a b : Nat => a ≤ b) := by
    rw [List.pairwise_map]
    exact hs
  rw [← assignStops_map_start, List.pairwise_map] at hmap
  exact hmap

/-! ### Programme-block order and determinism (C5) -/

theorem flatMap_congr_mem {α β : Type} {f g : α → List β} :
    ∀ {l : List α}, (∀ a ∈ l, f a = g a) → l.flatMap f = l.flatMap g
  | [], _ => rfl
  | a :: l, h => by
    simp only [List.flatMap_cons]
    rw [h a (List.mem_cons_self _ _),
      flatMap_congr_mem (fun b hb => h b (List.mem_cons_of_mem _ hb))]

theorem channelIdsOf_eq {l1 l2 : List ProgramRecord}
    (hmem : ∀ c : List Char,
      c ∈ l1.map (fun p => p.channel_id) ↔ c ∈ l2.map (fun p => p.channel_id)) :
    channelIdsOf l1 = channelIdsOf l2 := by
  unfold channelIdsOf
  refine List.eq_of_perm_of_sorted ?_ (List.sorted_insertionSort chanLe _)
    (List.sorted_insertionSort chanLe _)
  refine ((List.perm_insertionSort chanLe _).trans ?_).trans
    (List.perm_insertionSort chanLe _).symm
  rw [List.perm_ext_iff_of_nodup (List.nodup_dedup _) (List.nodup_dedup _)]
  intro c
  rw [List.mem_dedup, List.mem_dedup]
  exact hmem c

theorem generate_programmes_blocks (l : List ProgramRecord) (today : Nat) :
    (generate_xmltv l today).programmes
      = ((groupByChannel l).map Prod.fst).flatMap
          (fun k => channelProgrammes k (l.filter (fun p => p.channel_id = k)) today) := by
  show (groupByChannel l).flatMap (fun g => channelProgrammes g.1 g.2 today) = _
  conv_lhs => rw [groupBy_eq_map l]
  rw [List.flatMap_map]

/-- C5 (corrected claim): the programme elements appear one block per distinct
channel in order of the channels' first occurrence in the input (not sorted by
identifier), each block ascending by start timestamp and containing only that
channel's programmes; the channel elements are sorted ascending by identifier;
and the document is determined by the first-occurrence sequence of channel
identifiers together with each channel's own record subsequence. -/
theorem generate_deterministic (l1 l2 : List ProgramRecord) (today : Nat)
    (hkeys : (groupByChannel l1).map Prod.fst = (groupByChannel l2).map Prod.fst)
    (hfil : ∀ c ∈ (groupByChannel l1).map Prod.fst,
      l1.filter (fun p => p.channel_id = c) = l2.filter (fun p => p.channel_id = c)) :
    (generate_xmltv l1 today).programmes
      = ((groupByChannel l1).map Prod.fst).flatMap
          (fun k => channelProgrammes k (l1.filter (fun p => p.channel_id = k)) today)
    ∧ (∀ k ∈ (groupByChannel l1).map Prod.fst,
        List.Pairwise (fun a b : Programme => a.start ≤ b.start)
          (channelProgrammes k (l1.filter (fun p => p.channel_id = k)) today)
        ∧ ∀ pr ∈ channelProgrammes k (l1.filter (fun p => p.channel_id = k)) today,
            pr.channel = k)
    ∧ List.Pairwise chanLe ((generate_xmltv l1 today).channels.map Prod.fst)
    ∧ generate_xmltv l1 today = generate_xmltv l2 today := by
  refine ⟨generate_programmes_blocks l1 today, ?_, ?_, ?_⟩
  · intro k _
    exact ⟨channelProgrammes_sorted_start k _ today,
      fun pr hpr => channelProgrammes_channel pr hpr⟩
  · show List.Pairwise chanLe
      (((channelIdsOf l1).map (fun c => (c, displayName c))).map Prod.fst)
    rw [List.map_map]
    have hid : (Prod.fst ∘ fun c => (c, displayName c)) = id := rfl
    rw [hid, List.map_id]
    exact List.sorted_insertionSort chanLe _
  · have hm : ∀ c : List Char,
        c ∈ l1.map (fun p => p.channel_id) ↔ c ∈ l2.map (fun p => p.channel_id) := by
      intro c
      rw [← groupBy_keys_mem, ← groupBy_keys_mem, hkeys]
    have hc : (generate_xmltv l1 today).channels = (generate_xmltv l2 today).channels := by
      show (channelIdsOf l1).map (fun c => (c, displayName c))
        = (channelIdsOf l2).map (fun c => (c, displayName c))
      rw [channelIdsOf_eq hm]
    have hpr : (generate_xmltv l1 today).programmes
        = (generate_xmltv l2 today).programmes := by
      rw [generate_programmes_blocks l1 today, generate_programmes_blocks l2 today,
        ← hkeys]
      exact flatMap_congr_mem (fun k hk => by rw [hfil k hk])
    calc generate_xmltv l1 today
        = ⟨(generate_xmltv l2 today).channels, (generate_xmltv l2 today).programmes⟩ := by
          rw [← hc, ← hpr]
      _ = generate_xmltv l2 today := rfl

/-- C5 counterexample: with the "b.ph" record first, the "b.ph" programme
block precedes the "a.ph" block even though "a.ph" sorts before "b.ph", so the
programme elements are not ordered by channel identifier; and swapping the two
records — a permutation preserving each channel's own (singleton) record
order — changes the generated document. -/
theorem generate_channel_order_counterexample :
    ¬ List.Pairwise (fun a b : Programme => chanLe a.channel b.channel)
        ((generate_xmltv
          [⟨"MONDAY".toList, "5:00 PM".toList, "B".toList, "b.ph".toList⟩,
           ⟨"MONDAY".toList, "6:00 AM".toList, "A".toList, "a.ph".toList⟩] 0).programmes)
    ∧ generate_xmltv
          [⟨"MONDAY".toList, "5:00 PM".toList, "B".toList, "b.ph".toList⟩,
           ⟨"MONDAY".toList, "6:00 AM".toList, "A".toList, "a.ph".toList⟩] 0
        ≠ generate_xmltv
          [⟨"MONDAY".toList, "6:00 AM".toList, "A".toList, "a.ph".toList⟩,
           ⟨"MONDAY".toList, "5:00 PM".toList, "B".toList, "b.ph".toList⟩] 0 := by
  constructor
  · decide
  · decide

/-- Witness for the corrected C5: reordering records across channels while
keeping each channel's own order and the channel first-occurrence order
yields the same document. -/
theorem generate_deterministic_witness :
    generate_xmltv
        [⟨"MONDAY".toList, "5:00 PM".toList, "B1".toList, "b.ph".toList⟩,
         ⟨"MONDAY".toList, "6:00 AM".toList, "A".toList, "a.ph".toList⟩,
         ⟨"MONDAY".toList, "9:00 PM".toList, "B2".toList, "b.ph".toList⟩] 0
      = generate_xmltv
        [⟨"MONDAY".toList, "5:00 PM".toList, "B1".toList, "b.ph".toList⟩,
         ⟨"MONDAY".toList, "9:00 PM".toList, "B2".toList, "b.ph".toList⟩,
         ⟨"MONDAY".toList, "6:00 AM".toList, "A".toList, "a.ph".toList⟩] 0 :=
  (generate_deterministic
      [⟨"MONDAY".toList, "5:00 PM".toList, "B1".toList, "b.ph".toList⟩,
       ⟨"MONDAY".toList, "6:00 AM".toList, "A".toList, "a.ph".toList⟩,
       ⟨"MONDAY".toList, "9:00 PM".toList, "B2".toList, "b.ph".toList⟩]
      [⟨"MONDAY".toList, "5:00 PM".toList, "B1".toList, "b.ph".toList⟩,
       ⟨"MONDAY".toList, "9:00 PM".toList, "B2".toList, "b.ph".toList⟩,
       ⟨"MONDAY".toList, "6:00 AM".toList, "A".toList, "a.ph".toList⟩] 0
      (by decide)
      (by
        intro c hc
        rw [show (groupByChannel
            [⟨"MONDAY".toList, "5:00 PM".toList, "B1".toList, "b.ph".toList⟩,
             ⟨"MONDAY".toList, "6:00 AM".toList, "A".toList, "a.ph".toList⟩,
             ⟨"MONDAY".toList, "9:00 PM".toList, "B2".toList, "b.ph".toList⟩]).map Prod.fst
            = ["b.ph".toList, "a.ph".toList] from by decide] at hc
        rcases List.mem_cons.mp hc with rfl | hc2
        · decide
        · rcases List.mem_singleton.mp hc2 with rfl
          decide)).2.2.2

/-! ### Channel elements versus programme instances (C7) -/

theorem weekday_coverage (today w : Nat) (hw : w < 7) :
    ∃ i, i < EPG_SCHEDULE_DAYS ∧ (today + i) % 7 = w :=
  ⟨(w + 7 - today % 7) % 7, by unfold EPG_SCHEDULE_DAYS; omega, by omega⟩

theorem mem_channelIdsOf {l : List ProgramRecord} {c : List Char} :
    c ∈ channelIdsOf l ↔ ∃ p ∈ l, p.channel_id = c := by
  unfold channelIdsOf
  rw [List.mem_insertionSort, List.mem_dedup]
  exact List.mem_map

theorem projectDay_mem (cid : List Char) (progs : List ProgramRecord) (today i : Nat)
    (p : ProgramRecord) (hm : Nat × Nat) (hp : p ∈ progs)
    (hday : p.day = weekdayName ((today + i) % 7))
    (ht : parse_time_to_24h p.time_str = some hm) :
    (⟨(today + i) * 1440 + hm.1 * 60 + hm.2, p.title, cid⟩ : DatedInstance)
      ∈ projectDay cid progs today i := by
  unfold projectDay
  rw [List.mem_filterMap]
  refine ⟨p, ?_, ?_⟩
  · rw [List.mem_filter]
    exact ⟨hp, by simp [hday]⟩
  · rw [ht]
    rfl

theorem channelDated_ne_nil (cid : List Char) (progs : List ProgramRecord) (today : Nat)
    (p : ProgramRecord) (hp : p ∈ progs) (hw : ∃ w, w < 7 ∧ p.day = weekdayName w)
    (ht : (parse_time_to_24h p.time_str).isSome = true) :
    channelDated cid progs today ≠ [] := by
  obtain ⟨w, hw7, hday⟩ := hw
  obtain ⟨i, hi, hmod⟩ := weekday_coverage today w hw7
  obtain ⟨hm, ht2⟩ := Option.isSome_iff_exists.mp ht
  intro hnil
  have hmem := projectDay_mem cid progs today i p hm hp (by rw [hmod]; exact hday) ht2
  have hin : (⟨(today + i) * 1440 + hm.1 * 60 + hm.2, p.title, cid⟩ : DatedInstance)
      ∈ channelDated cid progs today := by
    unfold channelDated
    rw [List.mem_flatMap]
    exact ⟨i, by rw [List.mem_range]; exact hi, hmem⟩
  rw [hnil] at hin
  cases hin

theorem channelProgrammes_ne_nil (cid : List Char) (progs : List ProgramRecord)
    (today : Nat) (hne : channelDated cid progs today ≠ []) :
    channelProgrammes cid progs today ≠ [] := by
  intro h
  apply hne
  have hlen : (channelProgrammes cid progs today).length
      = (channelDated cid progs today).length := by
    unfold channelProgrammes channelInstances
    rw [assignStops_length, (List.perm_insertionSort startLe _).length_eq]
  rw [h] at hlen
  exact List.length_eq_zero.mp hlen.symm

/-- C7: under well-formed records (every record carries a canonical weekday
name and a normalizable time token), the generated document has a channel
element for an identifier exactly when at least one programme instance with
that identifier exists in the document. -/
theorem channel_iff_programme (l : List ProgramRecord) (today : Nat) (c : List Char)
    (hday : ∀ p ∈ l, ∃ w, w < 7 ∧ p.day = weekdayName w)
    (htime : ∀ p ∈ l, (parse_time_to_24h p.time_str).isSome = true) :
    c ∈ (generate_xmltv l today).channels.map Prod.fst
      ↔ ∃ pr ∈ (generate_xmltv l today).programmes, pr.channel = c := by
  have hchmap : (generate_xmltv l today).channels.map Prod.fst = channelIdsOf l := by
    show ((channelIdsOf l).map (fun c => (c, displayName c))).map Prod.fst = _
    rw [List.map_map]
    have hid : (Prod.fst ∘ fun c => (c, displayName c)) = id := rfl
    rw [hid, List.map_id]
  rw [hchmap, mem_channelIdsOf]
  constructor
  · rintro ⟨p, hpl, rfl⟩
    have hck : p.channel_id ∈ (groupByChannel l).map Prod.fst := by
      rw [groupBy_keys_mem]
      exact List.mem_map_of_mem _ hpl
    have hgmem : (p.channel_id, l.filter (fun q => q.channel_id = p.channel_id))
        ∈ groupByChannel l := by
      rw [groupBy_eq_map l]
      exact List.mem_map_of_mem _ hck
    have hfilmem : p ∈ l.filter (fun q => q.channel_id = p.channel_id) := by
      rw [List.mem_filter]
      exact ⟨hpl, by simp⟩
    have hne : channelProgrammes p.channel_id
        (l.filter (fun q => q.channel_id = p.channel_id)) today ≠ [] := by
      apply channelProgrammes_ne_nil
      exact channelDated_ne_nil _ _ today p hfilmem (hday p hpl) (htime p hpl)
    obtain ⟨pr, hpr⟩ := List.exists_mem_of_length_pos (List.length_pos.mpr hne)
    refine ⟨pr, ?_, channelProgrammes_channel pr hpr⟩
    show pr ∈ (groupByChannel l).flatMap (fun g => channelProgrammes g.1 g.2 today)
    rw [List.mem_flatMap]
    exact ⟨(p.channel_id, l.filter (fun q => q.channel_id = p.channel_id)), hgmem, hpr⟩
  · rintro ⟨pr, hpr, rfl⟩
    have hpr2 : pr ∈ (groupByChannel l).flatMap
        (fun g => channelProgrammes g.1 g.2 today) := hpr
    rw [List.mem_flatMap] at hpr2
    obtain ⟨g, hg, hprg⟩ := hpr2
    have hch : pr.channel = g.1 := channelProgrammes_channel pr hprg
    have hk : g.1 ∈ (groupByChannel l).map Prod.fst := List.mem_map_of_mem _ hg
    rw [groupBy_keys_mem, List.mem_map] at hk
    obtain ⟨q, hq, hqc⟩ := hk
    exact ⟨q, hq, by rw [hqc, hch]⟩

/-- Witness for C7 at a one-record input: the channel has both its channel
element and a programme instance. -/
theorem channel_iff_programme_witness :
    ∃ pr ∈ (generate_xmltv
        [⟨"MONDAY".toList, "5:00 PM".toList, "A".toList, "a.ph".toList⟩] 0).programmes,
      pr.channel = "a.ph".toList :=
  (channel_iff_programme
      [⟨"MONDAY".toList, "5:00 PM".toList, "A".toList, "a.ph".toList⟩] 0 "a.ph".toList
      (by
        intro p hp
        rcases List.mem_singleton.mp hp with rfl
        exact ⟨0, by decide, rfl⟩)
      (by
        intro p hp
        rcases List.mem_singleton.mp hp with rfl
        decide)).mp (by decide)

end EPG
